import Mathlib

/-!
# Verification of `download_thingy.py`

A shallow embedding, in Lean 4, of the parts of `download_thingy.py` that the
specification's claims are about:

* the JSON database of users / tweets / errors (`DB`, `Tweet`, `User`),
* the scrape-response parser of `get_related_tweets` (lines 290-311),
* the HTTP retry loop of `get_related_tweets` (lines 276-289),
* the reply-closure engine `do_reply_closure` (lines 313-353),
* the atomic database writer `write_db` (lines 71-80),
* the throttled checkpoint generator `write_gen` (lines 395-404),
* the by-id fetcher `fetch_tweets_by_id` (lines 142-150),
* the username resolver `get_user_ids` (lines 82-113) and the
  error-record path of `get_user_info` (lines 115-132).

Python dicts are modelled as structures carrying exactly the fields the code
reads; Python sets are modelled as duplicate-free lists obtained with `dedup`
(the code never depends on set iteration order in a way the claims are
sensitive to); network effects are modelled as explicit oracle functions
passed in an environment, and each network request the program issues is
recorded in an event log so that claims about "requests issued during a run"
can be stated.
-/

/-- One entry of a tweet's `referenced_tweets` list.  The code only ever reads
`ref["id"]` (line 338); the relation kind is kept for fidelity to the data
model. -/
structure RefTweet where
  type : String
  id : String
deriving Repr, DecidableEq

/-- A tweet record as stored in the JSON database.  Only the fields the
claims' code paths read are modelled: `id`, `author_id`, `referenced_tweets`
and the optional `scraped_refs` (absent ↦ `none`). -/
structure Tweet where
  id : String
  author_id : String
  referenced_tweets : List RefTweet
  scraped_refs : Option (List String)
deriving Repr, DecidableEq

/-- A user record.  `username` is `Option String` because the error path of
`get_user_info` (lines 123-130) stores the literal `None` as `username`. -/
structure User where
  id : String
  username : Option String
  name : String
  description : String
deriving Repr, DecidableEq

/-- The JSON database `{users, tweets, errors}`.  An error record is only ever
read through its `resource_id` field (line 137), so `errors` is modelled as the
list of those resource ids. -/
structure DB where
  users : List User
  tweets : List Tweet
  errors : List String
deriving Repr, DecidableEq

/-- `get_known` (lines 134-140): the set of known ids — ids of stored tweets,
resource ids of stored errors, and the two sentinel values. -/
def get_known (db : DB) : List String :=
  db.tweets.map (·.id) ++ db.errors ++ ["couldnt_scrape", "tweet_was_deleted"]

/-! ## Scrape-response parsing (`get_related_tweets`, lines 290-311) -/

/-- The fields of `content["itemContent"]` that `parse_timeline_item`
(lines 165-173) reads: `itemType`, the inner result's `__typename`, and its
`rest_id`. -/
structure ItemContent where
  itemType : String
  typename : String
  rest_id : String
deriving Repr, DecidableEq

/-- An entry's `content`, classified by its `entryType` as in
`parse_entry_content` (lines 175-184): a single timeline item, a module of
items, or an unknown entry type. -/
inductive EntryContent
  | timelineItem (c : ItemContent)
  | timelineModule (items : List ItemContent)
  | other (entryType : String)
deriving Repr, DecidableEq

/-- The parts of the scrape response JSON that `get_related_tweets` inspects:
whether `response_json["data"]` is truthy (line 292), and the list of entries
it walks (lines 299-303). -/
structure ScrapeResponse where
  hasData : Bool
  entries : List EntryContent
deriving Repr, DecidableEq

/-- `parse_timeline_item` (lines 165-173): append the tweet's `rest_id` to
`result` when the item is a `TimelineTweet` whose inner result is a `Tweet`;
otherwise leave `result` unchanged. -/
def parse_timeline_item (c : ItemContent) (result : List String) : List String :=
  if c.itemType ≠ "TimelineTweet" then result
  else if c.typename ≠ "Tweet" then result
  else result ++ [c.rest_id]

/-- `parse_entry_content` (lines 175-184): dispatch on `entryType`; an unknown
entry type raises `RuntimeError`. -/
def parse_entry_content (c : EntryContent) (result : List String) :
    Except String (List String) :=
  match c with
  | .timelineItem ic => .ok (parse_timeline_item ic result)
  | .timelineModule items =>
      .ok (items.foldl (fun acc it => parse_timeline_item it acc) result)
  | .other t => .error ("Unknown entryType " ++ t)

/-- The `for entry in ... entries` loop of lines 299-303, accumulating into
`result`; the surrounding `try` re-raises any failure as a `RuntimeError`
(lines 304-305), modelled as `Except.error`. -/
def parse_entries (entries : List EntryContent) (result : List String) :
    Except String (List String) :=
  match entries with
  | [] => .ok result
  | e :: rest =>
    match parse_entry_content e result with
    | .error msg => .error msg
    | .ok r => parse_entries rest r

/-- Lines 290-311 of `get_related_tweets`, after the HTTP response has been
obtained with status 200: no data payload ↦ `["tweet_was_deleted"]`; a parse
failure propagates; a parse yielding no entries ↦ `["couldnt_scrape"]`;
otherwise the collected ids. -/
def parse_scrape_response (r : ScrapeResponse) : Except String (List String) :=
  if !r.hasData then .ok ["tweet_was_deleted"]
  else
    match parse_entries r.entries [] with
    | .error msg => .error msg
    | .ok result => if result.isEmpty then .ok ["couldnt_scrape"] else .ok result

/-! ## The reply-closure engine (`do_reply_closure`, lines 313-353) -/

/-- The outcome of one call of `get_related_tweets` as seen by the closure
loop: a response obtained with HTTP status 200 (whose body the loop parses),
a fatal exception raised inside the call (`HTTPError`, `RuntimeError`, ...),
or a `KeyboardInterrupt` delivered during the call. -/
inductive ScrapeExc
  | interrupt
  | httpFatal (msg : String)
deriving Repr, DecidableEq

/-- The network environment of a closure run: the expand set, the scrape
endpoint (per focal tweet id), and the batched `client.get_tweets` endpoint,
which returns fetched tweet records and per-id error resource ids. -/
structure Env where
  expand_ids : List String
  scrape : String → Except ScrapeExc ScrapeResponse
  fetch : List String → List Tweet × List String

/-- Events recorded during a run: a scrape request for a focal tweet id, a
batched by-id fetch request, the completion of processing of one scanned
tweet, and a call of the checkpoint function `write_fn`. -/
inductive Ev
  | scrapeReq (id : String)
  | fetchReq (ids : List String)
  | processed (id : String)
  | writeCall
deriving Repr, DecidableEq

/-- The mutable state of `do_reply_closure` apart from the list of tweets
still to be scanned: the already-scanned tweets (in list order), the error
list, the `known` set, the pending `batch`, and the event log. -/
structure Store where
  processedTweets : List Tweet
  errors : List String
  known : List String
  batch : List String
  log : List Ev
deriving Repr, DecidableEq

/-- The scrape ids extracted from a log: the focal tweet ids of all scrape
requests, in order. -/
def scrapeIds (log : List Ev) : List String :=
  log.filterMap fun e => match e with | .scrapeReq i => some i | _ => none

/-- The by-id fetch requests extracted from a log, in order. -/
def fetchReqs (log : List Ev) : List (List String) :=
  log.filterMap fun e => match e with | .fetchReq ids => some ids | _ => none

/-- All ids ever sent in by-id fetch requests, in order. -/
def fetchedIds (log : List Ev) : List String := (fetchReqs log).flatten

/-- The ids of the tweets marked as processed in a log, in order. -/
def processedMarks (log : List Ev) : List String :=
  log.filterMap fun e => match e with | .processed i => some i | _ => none

/-- Line 328's guard: scrape a scanned tweet iff its `scraped_refs` is absent
or empty (`tweet.get("scraped_refs", [])` is falsy) and its author is in the
expand set. -/
def should_scrape (expand_ids : List String) (t : Tweet) : Bool :=
  (t.scraped_refs.getD []).isEmpty && decide (t.author_id ∈ expand_ids)

/-- Lines 338-342: the new ids of one scanned tweet — the set union of its
structural referenced-tweet ids with its (possibly just scraped) scraped
refs, minus the known set.  Python's `set` is modelled as a `dedup`-ed list. -/
def newRefs (t : Tweet) (scraped : List String) (known : List String) : List String :=
  ((t.referenced_tweets.map (·.id)) ++ scraped).dedup.filter (fun x => decide (x ∉ known))

/-- Finish processing one scanned tweet (lines 338-343): move it (with its
possibly updated `scraped_refs`) into the scanned prefix, extend `batch` and
`known` with its new ids, and call `write_fn`. -/
def finishTweet (s : Store) (t : Tweet) (scraped : List String) : Store :=
  let refs := newRefs t scraped s.known
  { s with
    processedTweets := s.processedTweets ++ [t]
    known := s.known ++ refs
    batch := s.batch ++ refs
    log := s.log ++ [.processed t.id, .writeCall] }

/-- Result of one scan pass (the `for tweet in tweets[pos:]` loop of lines
326-343): completed, or aborted by a `KeyboardInterrupt` (checkpoint called,
then re-raised) or by a fatal exception; in the aborted cases `rest` is the
still-unscanned suffix, whose head is the tweet being processed (its
`scraped_refs` assignment did not happen). -/
inductive PassResult
  | ok (s : Store)
  | interrupted (s : Store) (rest : List Tweet)
  | fatal (s : Store) (rest : List Tweet)
deriving Repr, DecidableEq

/-- The scan pass of lines 326-343 over the unscanned suffix `pend`.  For each
tweet: if it should be scraped, issue the scrape request; a
`KeyboardInterrupt` during the call triggers `write_fn()` and re-raises
(lines 332-336); any other exception propagates; on success the result of
`parse_scrape_response` becomes the tweet's `scraped_refs` (line 337).  Then
new ids are accumulated and `write_fn` is called (lines 338-343). -/
def runPass (env : Env) (s : Store) : List Tweet → PassResult
  | [] => .ok s
  | t :: rest =>
    let scraped := t.scraped_refs.getD []
    if should_scrape env.expand_ids t then
      let s1 := { s with log := s.log ++ [.scrapeReq t.id] }
      match env.scrape t.id with
      | .error .interrupt =>
          .interrupted { s1 with log := s1.log ++ [.writeCall] } (t :: rest)
      | .error (.httpFatal _) => .fatal s1 (t :: rest)
      | .ok resp =>
        match parse_scrape_response resp with
        | .error _ => .fatal s1 (t :: rest)
        | .ok refs =>
            runPass env (finishTweet s1 { t with scraped_refs := some refs } refs) rest
    else
      runPass env (finishTweet s t scraped) rest

/-- `batch[chunk:chunk+100]` slicing (line 348-349): split a list into
consecutive chunks of at most 100 elements.  `fuel` bounds the recursion and
is instantiated with the list's length. -/
def chunksAux (fuel : Nat) (l : List String) : List (List String) :=
  match fuel, l with
  | 0, _ => []
  | _, [] => []
  | f + 1, l => l.take 100 :: chunksAux f (l.drop 100)

/-- The chunks of size ≤ 100 that the closure loop fetches (lines 348-349). -/
def chunks100 (l : List String) : List (List String) := chunksAux l.length l

/-- One iteration of the fetch loop of lines 348-352: issue the batched
lookup for one chunk, append returned tweets (to be scanned by the next pass)
and error resource ids, and call `write_fn`. -/
def fetchChunk (env : Env) (acc : Store × List Tweet) (chunk : List String) :
    Store × List Tweet :=
  let got := env.fetch chunk
  ({ acc.1 with
      errors := acc.1.errors ++ got.2
      log := acc.1.log ++ [.fetchReq chunk, .writeCall] },
   acc.2 ++ got.1)

/-- Lines 346-353: fetch the pending batch in chunks of 100 and clear it.
The returned tweet list is the freshly appended suffix `tweets[pos:]` that
the next scan pass will process. -/
def fetchPhase (env : Env) (s : Store) : Store × List Tweet :=
  let p := (chunks100 s.batch).foldl (fetchChunk env) (s, [])
  ({ p.1 with batch := [] }, p.2)

/-- The overall outcome of a closure run.  `outOfFuel` marks a run whose
`while True` loop was not given enough iterations — the Python loop has no
built-in bound, so the embedding makes the iteration count explicit. -/
inductive RunResult
  | done (s : Store)
  | interrupted (s : Store) (rest : List Tweet)
  | fatal (s : Store) (rest : List Tweet)
  | outOfFuel (s : Store) (rest : List Tweet)
deriving Repr, DecidableEq

/-- The `while True` loop of lines 325-353: scan the unscanned suffix; if the
pending batch is empty, terminate; otherwise fetch the batch in chunks and
continue with the newly fetched tweets as the next suffix. -/
def closureLoop (env : Env) : Nat → Store → List Tweet → RunResult
  | 0, s, pend => .outOfFuel s pend
  | fuel + 1, s, pend =>
    match runPass env s pend with
    | .interrupted s1 r => .interrupted s1 r
    | .fatal s1 r => .fatal s1 r
    | .ok s1 =>
      if s1.batch.isEmpty then .done s1
      else
        let p := fetchPhase env s1
        closureLoop env fuel p.1 p.2

/-- Lines 315-324: the initial state of a closure run over database `db` —
no tweet scanned yet, `known` seeded from `get_known` plus every already
attached `scraped_refs` entry (lines 320-322), empty batch and log. -/
def initStore (db : DB) : Store :=
  { processedTweets := []
    errors := db.errors
    known := get_known db ++ db.tweets.flatMap (fun t => t.scraped_refs.getD [])
    batch := []
    log := [] }

/-- `do_reply_closure(data, expand_ids, write_fn, client)` (lines 313-353),
with the network behind `env` and the loop bounded by `fuel`. -/
def do_reply_closure (env : Env) (fuel : Nat) (db : DB) : RunResult :=
  closureLoop env fuel (initStore db) db.tweets

/-- The final `Store` of a run result. -/
def RunResult.store : RunResult → Store
  | .done s => s
  | .interrupted s _ => s
  | .fatal s _ => s
  | .outOfFuel s _ => s

/-- The unscanned tweets left behind by a run (empty for a normal
termination). -/
def RunResult.restPending : RunResult → List Tweet
  | .done _ => []
  | .interrupted _ r => r
  | .fatal _ r => r
  | .outOfFuel _ r => r

/-- The full tweet list of the database after a run: scanned prefix plus
unscanned suffix. -/
def RunResult.finalTweets (r : RunResult) : List Tweet :=
  r.store.processedTweets ++ r.restPending

/-- The event log of a run. -/
def RunResult.runLog (r : RunResult) : List Ev := r.store.log

/-- Whether a run ended by re-raising a `KeyboardInterrupt`. -/
def RunResult.isInterrupted : RunResult → Bool
  | .interrupted _ _ => true
  | _ => false

/-! ## The HTTP retry loop of `get_related_tweets` (lines 276-289) -/

/-- One HTTP response from the scrape endpoint together with the value of
`time.time()` at the moment the program handles it: the status code, the
`x-rate-limit-reset` header (read only for status 429; `none` models a 429
without the header, where line 282 raises `KeyError`), and the parsed body
used when the status is 200.  Clock values are integers; the code only
subtracts and compares them, which the integer model preserves. -/
structure HttpResp where
  status : Nat
  rateLimitReset : Option Int
  now : Int
  body : ScrapeResponse
deriving Repr, DecidableEq

/-- The outcome of the `while True` request loop of lines 276-285 over a
finite list of successive server responses. -/
inductive HttpLoopResult
  | ok (r : HttpResp)
  | keyError
  | sleepValueError
  | stillRetrying
deriving Repr, DecidableEq

/-- Lines 276-285: send the request; break on any status other than 429; on a
429 read the reset instant from the `x-rate-limit-reset` header (a missing
header raises `KeyError`), sleep for `resume - time.time()` seconds — Python's
`time.sleep` raises `ValueError` for a negative duration — and retry.  An
exhausted response list means every response so far was a 429 and the loop is
still retrying. -/
def scrape_http_loop : List HttpResp → HttpLoopResult
  | [] => .stillRetrying
  | r :: rest =>
    if r.status ≠ 429 then .ok r
    else
      match r.rateLimitReset with
      | none => .keyError
      | some resume =>
        if resume - r.now < 0 then .sleepValueError
        else scrape_http_loop rest

/-- The overall outcome of one `get_related_tweets` call. -/
inductive ScrapeCallOutcome
  | ok (refs : List String)
  | exc (msg : String)
  | stillRetrying
deriving Repr, DecidableEq

/-- `get_related_tweets` (lines 276-311) over the finite list of responses the
server produces for the repeated request: run the retry loop; then
`raise_for_status()` (line 286) turns any status ≥ 400 into an `HTTPError`,
line 287-289 turns any remaining non-200 status into a `RuntimeError`, and a
200 body is parsed by the lines modelled in `parse_scrape_response`. -/
def get_related_tweets_model (responses : List HttpResp) : ScrapeCallOutcome :=
  match scrape_http_loop responses with
  | .stillRetrying => .stillRetrying
  | .keyError => .exc "KeyError"
  | .sleepValueError => .exc "ValueError"
  | .ok r =>
    if r.status ≥ 400 then .exc "HTTPError"
    else if r.status ≠ 200 then .exc "RuntimeError"
    else
      match parse_scrape_response r.body with
      | .error msg => .exc msg
      | .ok refs => .ok refs

/-! ## Atomic database writes (`write_db`, lines 71-80) -/

/-- `os.path.dirname` on the character list of a path: the characters before
the last `'/'`.  (Modelled for ordinary relative and `dir/file` paths, the
shapes `write_db` receives; the POSIX corner case of a path directly under
the root, where `os.path.dirname` keeps the slash, is not needed here.) -/
def dirnameList : List Char → List Char
  | [] => []
  | c :: cs => if '/' ∈ cs then c :: dirnameList cs else []

/-- `os.path.dirname (line 75)` on strings. -/
def dirname (p : String) : String := String.mk (dirnameList p.data)

/-- The name `tempfile.NamedTemporaryFile(prefix="download_db",
dir=os.path.dirname(filename))` creates (lines 73-76): the random part of the
name is `salt`, chosen by `tempfile`. -/
def mkTempName (filename : String) (salt : String) : String :=
  (if dirname filename = "" then "" else dirname filename ++ "/")
    ++ "download_db" ++ salt

/-- A filesystem: a map from path to file content for the files that exist. -/
structure FS where
  files : String → Option String

/-- The individual filesystem effects `write_db` performs: creating the empty
temp file, one buffered write of `json.dump` appending a chunk to it, and the
atomic `os.replace` of line 80 (one indivisible step: the destination takes
the source's entire content and the source disappears). -/
inductive WStep
  | createTemp (name : String)
  | writeChunk (name : String) (s : String)
  | rename (src : String) (dst : String)
deriving Repr, DecidableEq

/-- Apply one filesystem step. -/
def applyStep (fs : FS) : WStep → FS
  | .createTemp n => ⟨fun p => if p = n then some "" else fs.files p⟩
  | .writeChunk n s =>
      ⟨fun p => if p = n then (fs.files n).map (· ++ s) else fs.files p⟩
  | .rename src dst =>
      ⟨fun p => if p = dst then fs.files src
        else if p = src then none else fs.files p⟩

/-- The step sequence of `write_db(filename, json_db)` (lines 71-80) when the
serialized document reaches the temp file as the chunks `chunks` (their
concatenation is the full serialization): create the temp file in
`dirname(filename)`, write the chunks, then atomically rename over the
target.  A crash at any point is modelled by executing only a prefix. -/
def write_db_steps (filename : String) (salt : String) (chunks : List String) :
    List WStep :=
  .createTemp (mkTempName filename salt)
    :: chunks.map (.writeChunk (mkTempName filename salt))
    ++ [.rename (mkTempName filename salt) filename]

/-- Run a list of filesystem steps. -/
def runSteps (fs : FS) (steps : List WStep) : FS := steps.foldl applyStep fs

/-! ## The throttled checkpoint generator (`write_gen`, lines 395-404) -/

/-- `write_gen` (lines 395-404): given the time `last` of the previous flush
(initially the generator's creation time) and the values of `time.time()` at
the successive `write_fn` calls, return for each call whether that call
actually wrote the database — it does so exactly when more than 10 seconds
have elapsed since the last flush, and only then resets the reference time. -/
def write_gen_flushes (last : Int) : List Int → List Bool
  | [] => []
  | now :: rest =>
    if now - last > 10 then true :: write_gen_flushes now rest
    else false :: write_gen_flushes last rest

/-! ## The by-id fetcher (`fetch_tweets_by_id`, lines 142-150) -/

/-- The upstream lookup requests `fetch_tweets_by_id` issues: the input ids
as a set (`dedup`) minus the known set, and — when anything remains — a
single `client.get_tweets` call carrying all remaining ids at once (lines
144-147); the code performs no chunking here. -/
def fetch_tweets_by_id_requests (db : DB) (tweet_ids : List String) :
    List (List String) :=
  let remaining := tweet_ids.dedup.filter (fun x => decide (x ∉ get_known db))
  if remaining.isEmpty then [] else [remaining]

/-! ## Username resolution (`get_user_ids`, lines 82-113) and the error-user
records of `get_user_info` (lines 115-132) -/

/-- Python `str.isdigit` for ASCII-digit strings: non-empty and all digits. -/
def str_isdigit (s : String) : Bool := !s.isEmpty && s.data.all Char.isDigit

/-- Python `str.casefold`, modelled as lower-casing (adequate for the ASCII
usernames involved here). -/
def casefold (s : String) : String := s.toLower

/-- The Python exceptions the resolver can raise before any network call. -/
inductive PyExc
  | attributeError
deriving Repr, DecidableEq

/-- The `for db_item in user_db` scan of lines 98-101: find a cached user by
case-insensitive username.  A cached record whose `username` is `None` makes
`db_item["username"].casefold()` raise `AttributeError` the moment the scan
reaches it. -/
def findUser : List User → String → Except PyExc (Option String)
  | [], _ => .ok none
  | u :: rest, name_cf =>
    match u.username with
    | none => .error .attributeError
    | some un =>
      if casefold un = name_cf then .ok (some u.id) else findUser rest name_cf

/-- The per-name body of `get_user_ids`'s loop, lines 88-104: a digit-only
name passes through as an id; otherwise a leading `@` is stripped and the
cached user list is scanned; unresolved names are queued for the batched
network lookup.  `acc` is `(result so far, names still needing lookup)`. -/
def get_user_ids_step (user_db : List User) (acc : List (Option String) × List String)
    (name : String) : Except PyExc (List (Option String) × List String) :=
  if str_isdigit name then .ok (acc.1 ++ [some name], acc.2)
  else
    let name1 := if name.startsWith "@" then name.drop 1 else name
    let name_cf := casefold name1
    match findUser user_db name_cf with
    | .error e => .error e
    | .ok (some uid) => .ok (acc.1 ++ [some uid], acc.2)
    | .ok none => .ok (acc.1 ++ [none], acc.2 ++ [name_cf])

/-- The part of `get_user_ids` (lines 82-105) that runs before any network
lookup is issued: resolve every name against literal ids and the cached user
list, collecting the names that would need the batched lookup of line 106.
An `AttributeError` raised while scanning the cache aborts the whole call
before the network is touched. -/
def get_user_ids_scan (user_db : List User) (names : List String) :
    Except PyExc (List (Option String) × List String) :=
  names.foldlM (get_user_ids_step user_db) ([], [])

/-- One error blob of a batched user lookup (`got["errors"]`): the fields
`get_user_info` reads at lines 124-128. -/
structure LookupErr where
  value : String
  title : String
  detail : String
deriving Repr, DecidableEq

/-- Lines 124-129 of `get_user_info`: the user record created for a per-id
lookup error — its `username` is the literal `None`. -/
def user_from_error (e : LookupErr) : User :=
  { id := e.value, username := none, name := e.title, description := e.detail }

/-- One batched `client.get_users(ids=...)` response: returned user records
and per-id error blobs. -/
structure UsersResp where
  data : List User
  errors : List LookupErr
deriving Repr, DecidableEq

/-- The chunk loop of `get_user_info` (lines 120-132): for each chunk of 100
unknown author ids, append one `user_from_error` record per error blob and
then the returned user records. -/
def get_user_info_model (users : List User) (tweets : List Tweet)
    (oracle : List String → UsersResp) : List User :=
  let known := users.map (·.id)
  let to_fetch := (tweets.map (·.author_id)).dedup.filter (fun x => decide (x ∉ known))
  (chunks100 to_fetch).foldl
    (fun acc chunk =>
      let got := oracle chunk
      acc ++ got.errors.map user_from_error ++ got.data)
    users

/-- The store component of a pass result, whatever the exit path. -/
def PassResult.passStore : PassResult → Store
  | .ok s => s
  | .interrupted s _ => s
  | .fatal s _ => s

/-! ## Soundness predicates and run invariants -/

/-- Well-formedness of the batched `get_tweets` endpoint, as the upstream API
guarantees: a response contains at most one record per id, only records for
ids that were requested, and fetched records carry no `scraped_refs` field
(that field exists only locally, attached by the closure loop). -/
def FetchSound (env : Env) : Prop :=
  ∀ req : List String,
    ((env.fetch req).1.map (·.id)).Nodup ∧
    ∀ t ∈ (env.fetch req).1, t.id ∈ req ∧ t.scraped_refs = none

/-- A tweet record whose `scraped_refs`, if present, is a non-empty list. -/
def SRok (t : Tweet) : Prop := ∀ l, t.scraped_refs = some l → l ≠ []

/-- Every `processed` event in a log is immediately followed by a `writeCall`
event: the checkpoint function is invoked right after each scanned tweet. -/
def followedByWrite (log : List Ev) : Prop :=
  ∀ (i : Nat) (x : String),
    log[i]? = some (Ev.processed x) → log[i + 1]? = some Ev.writeCall

/-- The inductive invariant of a closure run.  `T0` is the initial tweet list
of the database and `K0` the initial `known` set; `s` is the current store and
`pend` the still-unscanned suffix of the tweet list. -/
structure RunInv (env : Env) (T0 : List Tweet) (K0 : List String)
    (s : Store) (pend : List Tweet) : Prop where
  k0_sub : ∀ x ∈ K0, x ∈ s.known
  t0_ids : ∀ t ∈ T0, t.id ∈ K0
  tweets_nodup : ((s.processedTweets ++ pend).map (·.id)).Nodup
  tweets_known : ∀ t ∈ s.processedTweets ++ pend, t.id ∈ s.known
  batch_known : ∀ x ∈ s.batch, x ∈ s.known
  batch_fresh : ∀ x ∈ s.batch, ∀ t ∈ s.processedTweets ++ pend, x ≠ t.id
  fetched_batch_nodup : (fetchedIds s.log ++ s.batch).Nodup
  fetched_batch_new : ∀ x ∈ fetchedIds s.log ++ s.batch, x ∉ K0
  fetched_known : ∀ x ∈ fetchedIds s.log, x ∈ s.known
  scrape_nodup : (scrapeIds s.log).Nodup
  scrape_processed : ∀ x ∈ scrapeIds s.log, x ∈ s.processedTweets.map (·.id)
  processed_expand : ∀ t ∈ s.processedTweets, t.author_id ∈ env.expand_ids →
      ∃ l, t.scraped_refs = some l ∧ l ≠ []
  pend_origin : ∀ t ∈ pend, t ∈ T0 ∨ t.id ∉ T0.map (·.id)
  scrape_init : ∀ x ∈ scrapeIds s.log, ∀ t0 ∈ T0, t0.id = x →
      (t0.scraped_refs.getD []).isEmpty = true

/-- The facts about a run's final store that every exit path (normal, fatal,
interrupted, out of fuel) guarantees. -/
structure ExitFacts (env : Env) (T0 : List Tweet) (K0 : List String)
    (s : Store) : Prop where
  scrape_nodup : (scrapeIds s.log).Nodup
  scrape_init : ∀ x ∈ scrapeIds s.log, ∀ t0 ∈ T0, t0.id = x →
      (t0.scraped_refs.getD []).isEmpty = true
  fetched_nodup : (fetchedIds s.log).Nodup
  fetched_new : ∀ x ∈ fetchedIds s.log, x ∉ K0
  processed_expand : ∀ t ∈ s.processedTweets, t.author_id ∈ env.expand_ids →
      ∃ l, t.scraped_refs = some l ∧ l ≠ []

/-! ## Concrete fixtures used by witnesses and counterexamples -/

/-- A database holding one tweet by author `A` with no `scraped_refs`. -/
def dbOne : DB := ⟨[], [⟨"1", "A", [], none⟩], []⟩

/-- A database holding two tweets, by authors `A` and `B`. -/
def dbTwo : DB := ⟨[], [⟨"1", "A", [], none⟩, ⟨"2", "B", [], none⟩], []⟩

/-- An environment expanding author `A` whose scrape endpoint always answers
with an empty payload (the target tweet was deleted remotely) and whose fetch
endpoint returns nothing. -/
def envDeleted : Env :=
  { expand_ids := ["A"]
    scrape := fun _ => .ok ⟨false, []⟩
    fetch := fun _ => ([], []) }

/-- An environment with an empty expand set. -/
def envNoExpand : Env :=
  { expand_ids := []
    scrape := fun _ => .ok ⟨false, []⟩
    fetch := fun _ => ([], []) }

/-- An environment expanding author `A` in which every scrape call is hit by
a `KeyboardInterrupt`. -/
def envInterrupt : Env :=
  { expand_ids := ["A"]
    scrape := fun _ => .error .interrupt
    fetch := fun _ => ([], []) }

/-- A filesystem holding one file `db.json` with the previously committed
content. -/
def fsOld : FS := ⟨fun p => if p = "db.json" then some "old" else none⟩

/-! ## Helper lemmas -/

theorem scrapeIds_append (l l2 : List Ev) :
    scrapeIds (l ++ l2) = scrapeIds l ++ scrapeIds l2 := by
  simp [scrapeIds, List.filterMap_append]

theorem fetchReqs_append (l l2 : List Ev) :
    fetchReqs (l ++ l2) = fetchReqs l ++ fetchReqs l2 := by
  simp [fetchReqs, List.filterMap_append]

theorem fetchedIds_append (l l2 : List Ev) :
    fetchedIds (l ++ l2) = fetchedIds l ++ fetchedIds l2 := by
  simp [fetchedIds, fetchReqs_append]

theorem mem_scrapeIds {i : String} {log : List Ev} :
    i ∈ scrapeIds log ↔ Ev.scrapeReq i ∈ log := by
  simp only [scrapeIds, List.mem_filterMap]
  constructor
  · rintro ⟨a, ha, hfa⟩
    cases a <;> simp_all
  · intro h
    exact ⟨Ev.scrapeReq i, h, rfl⟩

theorem chunksAux_flatten : ∀ (f : Nat) (l : List String), l.length ≤ f →
    (chunksAux f l).flatten = l := by
  intro f
  induction f with
  | zero =>
    intro l hl
    simp at hl
    simp [hl, chunksAux]
  | succ f ih =>
    intro l hl
    match l with
    | [] => simp [chunksAux]
    | x :: xs =>
      simp only [chunksAux, List.flatten_cons]
      rw [ih ((x :: xs).drop 100) (by simp at hl ⊢; omega)]
      exact List.take_append_drop 100 (x :: xs)

theorem chunks100_flatten (l : List String) : (chunks100 l).flatten = l :=
  chunksAux_flatten l.length l le_rfl

theorem chunksAux_length_le : ∀ (f : Nat) (l c : List String),
    c ∈ chunksAux f l → c.length ≤ 100 := by
  intro f
  induction f with
  | zero => intro l c hc; simp [chunksAux] at hc
  | succ f ih =>
    intro l c hc
    match l with
    | [] => simp [chunksAux] at hc
    | x :: xs =>
      simp only [chunksAux, List.mem_cons] at hc
      rcases hc with h | h
      · subst h; simp
      · exact ih _ _ h

theorem chunks100_length_le (l c : List String) (hc : c ∈ chunks100 l) :
    c.length ≤ 100 :=
  chunksAux_length_le l.length l c hc

theorem newRefs_nodup (t : Tweet) (scraped known : List String) :
    (newRefs t scraped known).Nodup :=
  (List.nodup_dedup _).filter _

theorem newRefs_not_known (t : Tweet) (scraped known : List String) :
    ∀ x ∈ newRefs t scraped known, x ∉ known := by
  intro x hx
  simp only [newRefs, List.mem_filter, decide_eq_true_eq] at hx
  exact hx.2

/-! ## Parse lemmas (`get_related_tweets`, lines 290-311) -/

theorem parse_scrape_response_ne_nil (r : ScrapeResponse) (l : List String)
    (h : parse_scrape_response r = .ok l) : l ≠ [] := by
  unfold parse_scrape_response at h
  split at h
  · simp only [Except.ok.injEq] at h
    subst h; simp
  · split at h
    · exact absurd h (by simp)
    · split at h <;> (simp only [Except.ok.injEq] at h; subst h; simp_all)

theorem parse_deleted_iff (r : ScrapeResponse)
    (h : ∀ l, parse_entries r.entries [] = .ok l →
      "tweet_was_deleted" ∉ l ∧ "couldnt_scrape" ∉ l) :
    parse_scrape_response r = .ok ["tweet_was_deleted"] ↔ r.hasData = false := by
  unfold parse_scrape_response
  constructor
  · intro hp
    split at hp
    · next h1 => simpa using h1
    · next h1 =>
      exfalso
      split at hp
      · exact absurd hp (by simp)
      · next result hpe =>
        split at hp
        · simp at hp
        · simp only [Except.ok.injEq] at hp
          subst hp
          exact (h _ hpe).1 (by simp)
  · intro hd
    simp [hd]

theorem parse_couldnt_iff (r : ScrapeResponse)
    (h : ∀ l, parse_entries r.entries [] = .ok l →
      "tweet_was_deleted" ∉ l ∧ "couldnt_scrape" ∉ l) :
    parse_scrape_response r = .ok ["couldnt_scrape"] ↔
      r.hasData = true ∧ parse_entries r.entries [] = .ok [] := by
  unfold parse_scrape_response
  constructor
  · intro hp
    split at hp
    · next h1 => simp at hp
    · next h1 =>
      refine ⟨by simpa using h1, ?_⟩
      split at hp
      · exact absurd hp (by simp)
      · next result hpe =>
        split at hp
        · next he =>
          rw [List.isEmpty_iff] at he
          rw [hpe, he]
        · next he =>
          simp only [Except.ok.injEq] at hp
          subst hp
          exact absurd (by simp : "couldnt_scrape" ∈ ["couldnt_scrape"]) ((h _ hpe).2)
  · rintro ⟨hd, hpe⟩
    rw [hpe]
    simp [hd]

/-! ## Lemmas on `write_db` (lines 71-80) -/

theorem runSteps_preserves (tmp : String) :
    ∀ (l : List WStep),
    (∀ st ∈ l, st = WStep.createTemp tmp ∨ ∃ c, st = WStep.writeChunk tmp c) →
    ∀ (fs : FS) (p : String), p ≠ tmp → (runSteps fs l).files p = fs.files p := by
  intro l
  induction l with
  | nil => intro _ fs p _; rfl
  | cons st rest ih =>
    intro hl fs p hp
    have hst := hl st (by simp)
    have hrest : ∀ st ∈ rest, st = WStep.createTemp tmp ∨ ∃ c, st = WStep.writeChunk tmp c :=
      fun s hs => hl s (by simp [hs])
    show (runSteps (applyStep fs st) rest).files p = fs.files p
    rw [ih hrest (applyStep fs st) p hp]
    rcases hst with h | ⟨c, h⟩ <;> subst h <;> simp [applyStep, hp]

theorem write_chunks_content :
    ∀ (chunks : List String) (fs : FS) (tmp : String) (acc : String),
    fs.files tmp = some acc →
    ((chunks.map (WStep.writeChunk tmp)).foldl applyStep fs).files tmp
      = some (chunks.foldl (fun a c => a ++ c) acc) := by
  intro chunks
  induction chunks with
  | nil => intro fs tmp acc h; simpa using h
  | cons c rest ih =>
    intro fs tmp acc h
    simp only [List.map_cons, List.foldl_cons]
    exact ih (applyStep fs (.writeChunk tmp c)) tmp (acc ++ c)
      (by simp [applyStep, h])

theorem dirnameList_no_slash : ∀ l : List Char, '/' ∉ l → dirnameList l = [] := by
  intro l
  induction l with
  | nil => intro _; rfl
  | cons c cs ih =>
    intro h
    have : '/' ∉ cs := fun hc => h (by simp [hc])
    simp [dirnameList, this]

theorem dirnameList_append :
    ∀ (d s : List Char), '/' ∉ s → dirnameList (d ++ '/' :: s) = d := by
  intro d
  induction d with
  | nil => intro s hs; simp [dirnameList, hs]
  | cons c d ih =>
    intro s hs
    have hmem : '/' ∈ d ++ '/' :: s := by simp
    show (if '/' ∈ d ++ '/' :: s then c :: dirnameList (d ++ '/' :: s) else []) = c :: d
    rw [if_pos hmem, ih s hs]

theorem dirname_mkTempName (filename salt : String) (hsalt : '/' ∉ salt.data) :
    dirname (mkTempName filename salt) = dirname filename := by
  have hrest : '/' ∉ ("download_db".data ++ salt.data) := by
    intro h
    rcases List.mem_append.mp h with h | h
    · exact absurd h (by decide)
    · exact hsalt h
  have hdata : (mkTempName filename salt).data
      = (if dirname filename = "" then "" else dirname filename ++ "/").data
          ++ ("download_db".data ++ salt.data) := by
    simp [mkTempName, String.data_append]
  by_cases hd : dirname filename = ""
  · rw [if_pos hd] at hdata
    unfold dirname
    rw [hdata]
    show String.mk (dirnameList ([] ++ ("download_db".data ++ salt.data))) = dirname filename
    rw [List.nil_append, dirnameList_no_slash _ hrest, hd]
  · rw [if_neg hd] at hdata
    unfold dirname
    rw [hdata, String.data_append]
    show String.mk (dirnameList (((dirname filename).data ++ ['/'])
      ++ ("download_db".data ++ salt.data))) = dirname filename
    rw [List.append_assoc, List.singleton_append, dirnameList_append _ _ hrest]

/-- Claim C3: `write_db` serializes into a temporary file created in the same
directory as the target and then atomically renames it over the target.
Executing any strict prefix of its filesystem steps (a crash or failure at
any point before the final atomic rename) leaves the target file exactly as
it was — a reader never observes a partially-written state file; executing
all steps commits the full serialized content; and the temporary file's
directory is the target's directory.  `salt` is the random part of the
temporary name chosen by `tempfile` (slash-free, and distinct from the
target — `tempfile` creates a fresh file). -/
theorem write_db_atomic (fs : FS) (filename salt : String) (chunks : List String)
    (hfresh : mkTempName filename salt ≠ filename)
    (hsalt : '/' ∉ salt.data) :
    (∀ n, n < (write_db_steps filename salt chunks).length →
      (runSteps fs ((write_db_steps filename salt chunks).take n)).files filename
        = fs.files filename)
    ∧ (runSteps fs (write_db_steps filename salt chunks)).files filename
        = some (chunks.foldl (fun a c => a ++ c) "")
    ∧ dirname (mkTempName filename salt) = dirname filename := by
  have hsteps : write_db_steps filename salt chunks
      = (WStep.createTemp (mkTempName filename salt)
          :: chunks.map (WStep.writeChunk (mkTempName filename salt)))
        ++ [WStep.rename (mkTempName filename salt) filename] := by
    simp [write_db_steps]
  refine ⟨?crash, ?commit, dirname_mkTempName filename salt hsalt⟩
  case crash =>
    intro n hn
    have hlen : (write_db_steps filename salt chunks).length = chunks.length + 2 := by
      simp [write_db_steps]
    have hn2 : n ≤ (WStep.createTemp (mkTempName filename salt)
        :: chunks.map (WStep.writeChunk (mkTempName filename salt))).length := by
      rw [hlen] at hn
      simp only [List.length_cons, List.length_map]
      omega
    rw [hsteps, List.take_append_of_le_length hn2]
    apply runSteps_preserves (mkTempName filename salt)
    · intro st hst
      have hmem := List.mem_of_mem_take hst
      rcases List.mem_cons.mp hmem with h | h
      · exact Or.inl h
      · right
        obtain ⟨c, _, hc⟩ := List.mem_map.mp h
        exact ⟨c, hc.symm⟩
    · exact fun h => hfresh h.symm
  case commit =>
    rw [hsteps]
    unfold runSteps
    rw [List.foldl_append]
    have hchunks : ((chunks.map (WStep.writeChunk (mkTempName filename salt))).foldl
        applyStep (applyStep fs (.createTemp (mkTempName filename salt)))).files
          (mkTempName filename salt)
        = some (chunks.foldl (fun a c => a ++ c) "") := by
      apply write_chunks_content
      simp [applyStep]
    simp only [List.foldl_cons, List.foldl_nil]
    show (applyStep _ (WStep.rename (mkTempName filename salt) filename)).files filename = _
    rw [show ∀ (fs2 : FS) (src dst : String),
        (applyStep fs2 (.rename src dst)).files dst = fs2.files src
      from fun fs2 src dst => by simp [applyStep]]
    exact hchunks

/-! ## Checkpoint lemmas (`write_gen`, lines 395-404, and the closure log) -/

theorem write_gen_no_flush (last : Int) :
    ∀ times : List Int, (∀ t ∈ times, t - last ≤ 10) →
    write_gen_flushes last times = List.replicate times.length false := by
  intro times
  induction times with
  | nil => intro _; rfl
  | cons now rest ih =>
    intro h
    have hnow : ¬(now - last > 10) := by
      have := h now (by simp)
      omega
    simp only [write_gen_flushes, if_neg hnow, List.length_cons, List.replicate_succ]
    rw [ih fun t ht => h t (by simp [ht])]

theorem followedByWrite_of_no_processed (l : List Ev)
    (h : ∀ x, Ev.processed x ∉ l) : followedByWrite l := by
  intro i x hx
  exact absurd (List.getElem?_mem hx) (h x)

theorem followedByWrite_proc_write (i : String) :
    followedByWrite [Ev.processed i, Ev.writeCall] := by
  intro j x hx
  match j with
  | 0 => simp at hx ⊢
  | 1 => simp at hx
  | n + 2 => simp at hx

theorem followedByWrite_append {l l2 : List Ev}
    (h1 : followedByWrite l) (h2 : followedByWrite l2) :
    followedByWrite (l ++ l2) := by
  intro i x hx
  rcases lt_or_ge i l.length with hi | hi
  · have hxl : l[i]? = some (Ev.processed x) := by
      rw [List.getElem?_append, if_pos hi] at hx
      exact hx
    have hnext := h1 i x hxl
    rcases lt_or_ge (i + 1) l.length with hi1 | hi1
    · rw [List.getElem?_append, if_pos hi1]
      exact hnext
    · exfalso
      rw [List.getElem?_eq_none hi1] at hnext
      exact absurd hnext (by simp)
  · have hxl2 : l2[i - l.length]? = some (Ev.processed x) := by
      rw [List.getElem?_append_right hi] at hx
      exact hx
    have hnext := h2 (i - l.length) x hxl2
    rw [List.getElem?_append_right (by omega), show i + 1 - l.length = (i - l.length) + 1 by omega]
    exact hnext

theorem runPass_followed (env : Env) :
    ∀ (pend : List Tweet) (s : Store), followedByWrite s.log →
    followedByWrite ((runPass env s pend).passStore).log := by
  intro pend
  induction pend with
  | nil => intro s hs; exact hs
  | cons t rest ih =>
    intro s hs
    have hsc : followedByWrite (s.log ++ [Ev.scrapeReq t.id]) :=
      followedByWrite_append hs
        (followedByWrite_of_no_processed _ (by intro x; simp))
    simp only [runPass]
    split
    · match hscr : env.scrape t.id with
      | .error .interrupt =>
        simp only [hscr, PassResult.passStore]
        exact followedByWrite_append hsc
          (followedByWrite_of_no_processed _ (by intro x; simp))
      | .error (.httpFatal m) =>
        simp only [hscr, PassResult.passStore]
        exact hsc
      | .ok resp =>
        simp only [hscr]
        match hp : parse_scrape_response resp with
        | .error m =>
          simp only [hp, PassResult.passStore]
          exact hsc
        | .ok refs =>
          simp only [hp]
          apply ih
          simp only [finishTweet]
          exact followedByWrite_append hsc (followedByWrite_proc_write _)
    · apply ih
      simp only [finishTweet]
      exact followedByWrite_append hs (followedByWrite_proc_write _)

theorem fetchChunk_followed (env : Env) :
    ∀ (chunks : List (List String)) (s : Store) (acc : List Tweet),
    followedByWrite s.log →
    followedByWrite ((chunks.foldl (fetchChunk env) (s, acc)).1).log := by
  intro chunks
  induction chunks with
  | nil => intro s acc hs; exact hs
  | cons c cs ih =>
    intro s acc hs
    simp only [List.foldl_cons]
    apply ih
    simp only [fetchChunk]
    exact followedByWrite_append hs
      (followedByWrite_of_no_processed _ (by intro x; simp))

theorem closureLoop_followed (env : Env) :
    ∀ (fuel : Nat) (s : Store) (pend : List Tweet), followedByWrite s.log →
    followedByWrite (((closureLoop env fuel s pend).store).log) := by
  intro fuel
  induction fuel with
  | zero => intro s pend hs; exact hs
  | succ fuel ih =>
    intro s pend hs
    simp only [closureLoop]
    match hr : runPass env s pend with
    | .interrupted s1 r =>
      have := runPass_followed env pend s hs
      rw [hr] at this
      exact this
    | .fatal s1 r =>
      have := runPass_followed env pend s hs
      rw [hr] at this
      exact this
    | .ok s1 =>
      have h1 : followedByWrite s1.log := by
        have := runPass_followed env pend s hs
        rw [hr] at this
        exact this
      by_cases hb : s1.batch.isEmpty
      · simp only [hb, if_true, RunResult.store]
        exact h1
      · simp only [hb, if_false]
        apply ih
        simp only [fetchPhase]
        exact fetchChunk_followed env _ _ _ h1

theorem runPass_interrupted_log (env : Env) :
    ∀ (pend : List Tweet) (s s1 : Store) (r : List Tweet),
    runPass env s pend = .interrupted s1 r →
    ∃ pre, s1.log = pre ++ [Ev.writeCall] := by
  intro pend
  induction pend with
  | nil => intro s s1 r h; exact absurd h (by simp [runPass])
  | cons t rest ih =>
    intro s s1 r h
    simp only [runPass] at h
    split at h
    · match hscr : env.scrape t.id with
      | .error .interrupt =>
        rw [hscr] at h
        simp only [PassResult.interrupted.injEq] at h
        exact ⟨_, congrArg Store.log h.1.symm⟩
      | .error (.httpFatal m) => rw [hscr] at h; exact absurd h (by simp)
      | .ok resp =>
        simp only [hscr] at h
        match hp : parse_scrape_response resp with
        | .error m => simp only [hp] at h; exact absurd h (by simp)
        | .ok refs => simp only [hp] at h; exact ih _ _ _ h
    · exact ih _ _ _ h

theorem closureLoop_interrupted_log (env : Env) :
    ∀ (fuel : Nat) (s : Store) (pend : List Tweet) (s1 : Store) (r : List Tweet),
    closureLoop env fuel s pend = .interrupted s1 r →
    ∃ pre, s1.log = pre ++ [Ev.writeCall] := by
  intro fuel
  induction fuel with
  | zero => intro s pend s1 r h; exact absurd h (by simp [closureLoop])
  | succ fuel ih =>
    intro s pend s1 r h
    simp only [closureLoop] at h
    match hr : runPass env s pend with
    | .interrupted s2 r2 =>
      simp only [hr, RunResult.interrupted.injEq] at h
      obtain ⟨pre, hpre⟩ := runPass_interrupted_log env pend s s2 r2 hr
      exact ⟨pre, h.1 ▸ hpre⟩
    | .fatal s2 r2 => simp only [hr] at h; exact absurd h (by simp)
    | .ok s2 =>
      simp only [hr] at h
      by_cases hb : s2.batch.isEmpty
      · rw [if_pos hb] at h; exact absurd h (by simp)
      · rw [if_neg hb] at h
        exact ih _ _ _ _ h

theorem runPass_ok_scrapeIds (env : Env)
    (hI : ∀ x, env.scrape x = .error .interrupt) :
    ∀ (pend : List Tweet) (s s1 : Store),
    runPass env s pend = .ok s1 → scrapeIds s1.log = scrapeIds s.log := by
  intro pend
  induction pend with
  | nil =>
    intro s s1 h
    simp only [runPass, PassResult.ok.injEq] at h
    rw [← h]
  | cons t rest ih =>
    intro s s1 h
    simp only [runPass] at h
    split at h
    · simp only [hI t.id] at h
      exact absurd h (by simp)
    · rw [ih _ _ h]
      simp [finishTweet, scrapeIds_append, scrapeIds]

theorem fetchFold_scrapeIds (env : Env) :
    ∀ (chunks : List (List String)) (s : Store) (acc : List Tweet),
    scrapeIds ((chunks.foldl (fetchChunk env) (s, acc)).1).log = scrapeIds s.log := by
  intro chunks
  induction chunks with
  | nil => intro s acc; rfl
  | cons c cs ih =>
    intro s acc
    simp only [List.foldl_cons]
    rw [ih]
    simp [fetchChunk, scrapeIds_append, scrapeIds]

theorem closureLoop_done_scrapeIds (env : Env)
    (hI : ∀ x, env.scrape x = .error .interrupt) :
    ∀ (fuel : Nat) (s : Store) (pend : List Tweet) (s1 : Store),
    closureLoop env fuel s pend = .done s1 → scrapeIds s1.log = scrapeIds s.log := by
  intro fuel
  induction fuel with
  | zero => intro s pend s1 h; exact absurd h (by simp [closureLoop])
  | succ fuel ih =>
    intro s pend s1 h
    simp only [closureLoop] at h
    match hr : runPass env s pend with
    | .interrupted s2 r2 => simp only [hr] at h; exact absurd h (by simp)
    | .fatal s2 r2 => simp only [hr] at h; exact absurd h (by simp)
    | .ok s2 =>
      simp only [hr] at h
      have h2 := runPass_ok_scrapeIds env hI pend s s2 hr
      by_cases hb : s2.batch.isEmpty
      · rw [if_pos hb] at h
        simp only [RunResult.done.injEq] at h
        rw [← h, h2]
      · rw [if_neg hb] at h
        rw [ih _ _ _ h, fetchPhase]
        rw [show ∀ (p : Store × List Tweet), ({ p.1 with batch := [] } : Store).log = p.1.log
          from fun p => rfl]
        rw [fetchFold_scrapeIds env _ s2 [], h2]

/-- Claim C4 counterexample: a concrete closure run over `dbTwo` processes two
tweets (the log marks `"1"` and `"2"` processed and contains two checkpoint
calls), yet when the two checkpoint calls reach `write_gen` at 3 and 6
seconds after the generator's reference time, neither performs a flush: the
generator writes only when more than 10 seconds have elapsed (line 399).  No
flush of the in-memory database to the persistent store occurs after
processing each tweet, and both tweets' work would be lost on abrupt
termination — more than one unit of in-flight work. -/
theorem closure_checkpoint_no_flush :
    processedMarks (do_reply_closure envNoExpand 2 dbTwo).runLog = ["1", "2"]
    ∧ (do_reply_closure envNoExpand 2 dbTwo).runLog.count Ev.writeCall = 2
    ∧ write_gen_flushes 0 [3, 6] = [false, false] := by
  decide

/-- Claim C4 (amended): after processing each tweet the closure loop invokes
the checkpoint function `write_fn` (in every run's log, each `processed`
event is immediately followed by a `writeCall` event), but `write_fn` —
`write_gen`'s `next` — flushes the database to the persistent store only when
more than ten seconds have elapsed since the previous flush: all checkpoint
calls within ten seconds of the last flush perform no write.  Data lost on
abrupt termination is therefore bounded by the work of the last flush
interval (on the order of ten seconds), not by one tweet of in-flight
work. -/
theorem closure_checkpoint_throttled :
    (∀ (env : Env) (fuel : Nat) (db : DB),
      followedByWrite (do_reply_closure env fuel db).runLog)
    ∧ (∀ (last : Int) (times : List Int), (∀ t ∈ times, t - last ≤ 10) →
      write_gen_flushes last times = List.replicate times.length false) := by
  constructor
  · intro env fuel db
    exact closureLoop_followed env fuel (initStore db) db.tweets
      (followedByWrite_of_no_processed _ (by intro x; simp [initStore]))
  · exact write_gen_no_flush

theorem closure_checkpoint_throttled_witness :
    (do_reply_closure envNoExpand 2 dbTwo).runLog[1]? = some Ev.writeCall
    ∧ write_gen_flushes 0 [3, 6] = List.replicate 2 false :=
  ⟨closure_checkpoint_throttled.1 envNoExpand 2 dbTwo 0 "1" (by decide),
   closure_checkpoint_throttled.2 0 [3, 6] (by decide)⟩

/-- Claim C5 counterexample: in a concrete run interrupted during the scrape
call, the engine does invoke the checkpoint function once before re-raising
(the log is `[scrapeReq "1", writeCall]` and the run result is
`interrupted`), but when that single call reaches `write_gen` 3 seconds
after the generator's reference time, it performs no write: no flush of the
in-memory database to the persistent store happens before the interrupt
propagates, contradicting "performs one final flush of the in-memory
database to the persistent store". -/
theorem closure_interrupt_no_flush :
    (do_reply_closure envInterrupt 2 dbOne).isInterrupted = true
    ∧ (do_reply_closure envInterrupt 2 dbOne).runLog = [Ev.scrapeReq "1", Ev.writeCall]
    ∧ write_gen_flushes 0 [3] = [false] := by
  decide

/-- Claim C5 (amended): if a `KeyboardInterrupt` arrives during the scrape
call in the closure loop, the engine invokes the checkpoint function once
more — the log of every interrupted run ends with a `writeCall` event — and
then re-raises; the interruption is never swallowed: a run that completes
normally under an always-interrupting scraper never issued a single scrape
request.  The final checkpoint invocation is only best-effort: `write_gen`
writes the database to the persistent store only when more than ten seconds
have elapsed since the last flush. -/
theorem closure_interrupt_checkpoint :
    (∀ (env : Env) (fuel : Nat) (db : DB) (s : Store) (r : List Tweet),
      do_reply_closure env fuel db = .interrupted s r →
      ∃ pre, s.log = pre ++ [Ev.writeCall])
    ∧ (∀ (env : Env) (fuel : Nat) (db : DB) (s : Store),
      (∀ x, env.scrape x = .error .interrupt) →
      do_reply_closure env fuel db = .done s → scrapeIds s.log = [])
    ∧ (∀ (last : Int) (times : List Int), (∀ t ∈ times, t - last ≤ 10) →
      write_gen_flushes last times = List.replicate times.length false) := by
  refine ⟨?_, ?_, write_gen_no_flush⟩
  · intro env fuel db s r h
    exact closureLoop_interrupted_log env fuel (initStore db) db.tweets s r h
  · intro env fuel db s hI h
    have := closureLoop_done_scrapeIds env hI fuel (initStore db) db.tweets s h
    rw [this]
    rfl

theorem closure_interrupt_checkpoint_witness :
    ∃ pre,
      (Store.mk [] [] ["1", "couldnt_scrape", "tweet_was_deleted"] []
        [Ev.scrapeReq "1", Ev.writeCall]).log = pre ++ [Ev.writeCall] :=
  closure_interrupt_checkpoint.1 envInterrupt 2 dbOne
    (Store.mk [] [] ["1", "couldnt_scrape", "tweet_was_deleted"] []
      [Ev.scrapeReq "1", Ev.writeCall])
    [⟨"1", "A", [], none⟩] (by decide)

theorem write_db_atomic_witness :
    (runSteps fsOld ((write_db_steps "db.json" "x" ["ne", "w"]).take 2)).files "db.json"
      = some "old"
    ∧ (runSteps fsOld (write_db_steps "db.json" "x" ["ne", "w"])).files "db.json"
      = some "new"
    ∧ dirname (mkTempName "db.json" "x") = dirname "db.json" := by
  obtain ⟨h1, h2, h3⟩ :=
    write_db_atomic fsOld "db.json" "x" ["ne", "w"] (by decide) (by decide)
  refine ⟨?_, ?_, h3⟩
  · rw [h1 2 (by decide)]
    rfl
  · rw [h2]
    rfl

set_option maxRecDepth 8000 in
/-- Claim C7 (code bug): the spec requires the by-id tweet fetch to issue its
upstream lookups in batches of at most 100 ids per call, and the closure
loop's own fetch indeed chunks at 100 (lines 348-349, third conjunct), but
`fetch_tweets_by_id` (lines 142-150) performs no chunking: for 101 unknown
input ids it issues a single `get_tweets` call carrying all 101 ids, which
exceeds the upstream limit of 100 ids per request. -/
theorem fetch_by_id_unchunked :
    fetch_tweets_by_id_requests ⟨[], [], []⟩ ((List.range 101).map (fun n => toString n))
      = [(List.range 101).map (fun n => toString n)]
    ∧ ((List.range 101).map (fun n => toString n)).length = 101
    ∧ ((chunks100 ((List.range 101).map (fun n => toString n))).all
        (fun c => c.length ≤ 100)) = true := by
  refine ⟨by decide, by decide, by decide⟩

/-- Claim C8 counterexample: a single rate-limit response whose
`x-rate-limit-reset` instant (5) precedes the clock value at handling time
(10) makes `get_related_tweets` abort with a `ValueError`: line 285 calls
`time.sleep(resume - time.time())` with a negative duration, which Python
rejects.  A rate-limit response can therefore abort the scrape, contradicting
"repeating indefinitely — rate limiting never aborts the scrape". -/
theorem scrape_rate_limit_aborts :
    get_related_tweets_model [⟨429, some 5, 10, ⟨false, []⟩⟩] = .exc "ValueError" := by
  decide

theorem scrape_http_loop_skip (pre : List HttpResp)
    (hpre : ∀ q ∈ pre, q.status = 429 ∧ ∃ t, q.rateLimitReset = some t ∧ q.now ≤ t) :
    ∀ l, scrape_http_loop (pre ++ l) = scrape_http_loop l := by
  induction pre with
  | nil => intro l; rfl
  | cons q pre ih =>
    intro l
    obtain ⟨h429, t, hreset, ht⟩ := hpre q (by simp)
    have hrec : ∀ s ∈ pre, s.status = 429 ∧ ∃ t, s.rateLimitReset = some t ∧ s.now ≤ t :=
      fun s hs => hpre s (by simp [hs])
    show scrape_http_loop (q :: (pre ++ l)) = _
    simp only [scrape_http_loop]
    rw [if_neg (by simp [h429]), hreset]
    simp only []
    rw [if_neg (by omega)]
    exact ih hrec l

/-- Claim C8 (amended): as long as every rate-limit response carries a reset
instant that is not already in the past, `get_related_tweets` sleeps until
that instant and retries the same request through any number of 429
responses — with only such responses the loop never gives up (it is still
retrying after any finite sequence of them) — and the first non-429 response
decides the call: a status ≥ 400 is a fatal `HTTPError`, any other non-200
status a fatal `RuntimeError`, and a 200 response is parsed.  A 429 whose
reset instant precedes the current time, however, aborts the call with a
`ValueError` from `time.sleep`. -/
theorem scrape_rate_limit_retry (pre : List HttpResp) (r : HttpResp) (rest : List HttpResp)
    (hpre : ∀ q ∈ pre, q.status = 429 ∧ ∃ t, q.rateLimitReset = some t ∧ q.now ≤ t)
    (hr : r.status ≠ 429) :
    scrape_http_loop (pre ++ r :: rest) = .ok r
    ∧ get_related_tweets_model (pre ++ r :: rest)
      = (if r.status ≥ 400 then .exc "HTTPError"
         else if r.status ≠ 200 then .exc "RuntimeError"
         else match parse_scrape_response r.body with
           | .error msg => .exc msg
           | .ok refs => .ok refs)
    ∧ (∀ all : List HttpResp,
        (∀ q ∈ all, q.status = 429 ∧ ∃ t, q.rateLimitReset = some t ∧ q.now ≤ t) →
        scrape_http_loop all = .stillRetrying) := by
  have hloop : scrape_http_loop (pre ++ r :: rest) = .ok r := by
    rw [scrape_http_loop_skip pre hpre]
    simp only [scrape_http_loop]
    rw [if_pos hr]
  refine ⟨hloop, ?_, ?_⟩
  · unfold get_related_tweets_model
    rw [hloop]
  · intro all hall
    have := scrape_http_loop_skip all hall []
    rw [List.append_nil] at this
    rw [this]
    rfl

theorem scrape_rate_limit_retry_witness :
    scrape_http_loop [⟨429, some 10, 5, ⟨false, []⟩⟩, ⟨200, none, 6, ⟨false, []⟩⟩]
      = .ok ⟨200, none, 6, ⟨false, []⟩⟩
    ∧ get_related_tweets_model
        [⟨429, some 10, 5, ⟨false, []⟩⟩, ⟨200, none, 6, ⟨false, []⟩⟩]
      = .ok ["tweet_was_deleted"] := by
  obtain ⟨h1, h2, h3⟩ :=
    scrape_rate_limit_retry [⟨429, some 10, 5, ⟨false, []⟩⟩] ⟨200, none, 6, ⟨false, []⟩⟩ []
      (by
        intro q hq
        rw [List.mem_singleton] at hq
        subst hq
        exact ⟨rfl, 10, rfl, by decide⟩)
      (by decide)
  simp only [List.singleton_append] at h1 h2
  exact ⟨h1, by rw [h2]; rfl⟩

/-- Claim C9: `get_user_info` materializes every per-id user-lookup error as
a user record whose `username` is the literal `None` (first conjunct), such a
record is reachable — looking up the unknown author id `"42"` against an
oracle that reports a per-id error stores exactly that record in the user
list (second conjunct) — and afterwards resolving the non-numeric selector
`"bob"` makes `get_user_ids` raise an uncaught `AttributeError` while
scanning the cached user list, before any network lookup is issued (the scan
phase itself aborts, third conjunct). -/
theorem user_lookup_attribute_error :
    (∀ e : LookupErr, (user_from_error e).username = none)
    ∧ get_user_info_model [] [⟨"t1", "42", [], none⟩]
        (fun _ => ⟨[], [⟨"42", "Not Found Error", "Could not find user"⟩]⟩)
      = [user_from_error ⟨"42", "Not Found Error", "Could not find user"⟩]
    ∧ get_user_ids_scan
        (get_user_info_model [] [⟨"t1", "42", [], none⟩]
          (fun _ => ⟨[], [⟨"42", "Not Found Error", "Could not find user"⟩]⟩))
        ["bob"]
      = .error .attributeError
    ∧ str_isdigit "bob" = false :=
  ⟨fun _ => rfl, rfl, rfl, rfl⟩

/-! ## The closure-run invariant -/

theorem scrapeIds_proc_write (i : String) :
    scrapeIds [Ev.processed i, Ev.writeCall] = [] := rfl

theorem fetchedIds_proc_write (i : String) :
    fetchedIds [Ev.processed i, Ev.writeCall] = [] := rfl

theorem scrapeIds_req (i : String) : scrapeIds [Ev.scrapeReq i] = [i] := rfl

theorem fetchedIds_req (i : String) : fetchedIds [Ev.scrapeReq i] = [] := rfl

theorem scrapeIds_fetch_write (c : List String) :
    scrapeIds [Ev.fetchReq c, Ev.writeCall] = [] := rfl

theorem fetchedIds_fetch_write (c : List String) :
    fetchedIds [Ev.fetchReq c, Ev.writeCall] = c := by
  simp [fetchedIds, fetchReqs]

/-- Processing one scanned tweet preserves the run invariant: `t` is the
scanned tweet, `t2` the version stored into the scanned prefix (identical id
and referenced tweets), `newEvs` the scrape events logged before the
`processed`/`writeCall` pair, and `scraped` the refs list used for the id
union. -/
theorem step_inv {env : Env} {T0 : List Tweet} {K0 : List String} {s : Store}
    {t t2 : Tweet} {rest : List Tweet} (scraped : List String) (newEvs : List Ev)
    (hT0 : (T0.map (·.id)).Nodup)
    (hInv : RunInv env T0 K0 s (t :: rest))
    (hid : t2.id = t.id)
    (hexp : t2.author_id ∈ env.expand_ids → ∃ l, t2.scraped_refs = some l ∧ l ≠ [])
    (hscr : scrapeIds newEvs = [] ∨
      (scrapeIds newEvs = [t.id] ∧ (t.scraped_refs.getD []).isEmpty = true))
    (hfetch : fetchedIds newEvs = []) :
    RunInv env T0 K0 (finishTweet { s with log := s.log ++ newEvs } t2 scraped) rest := by
  have hrefs_nodup := newRefs_nodup t2 scraped s.known
  have hrefs_new := newRefs_not_known t2 scraped s.known
  have htid_known : t.id ∈ s.known := hInv.tweets_known t (by simp)
  have hmapids : ((s.processedTweets ++ t :: rest).map (·.id))
      = s.processedTweets.map (·.id) ++ t.id :: rest.map (·.id) := by simp
  have ht_notin_processed : t.id ∉ s.processedTweets.map (·.id) := by
    have hnd := hInv.tweets_nodup
    rw [hmapids] at hnd
    intro hmem
    exact (List.disjoint_of_nodup_append hnd) hmem (by simp)
  have hlog2 : (finishTweet { s with log := s.log ++ newEvs } t2 scraped).log
      = s.log ++ newEvs ++ [Ev.processed t2.id, Ev.writeCall] := rfl
  have hscrape2 : scrapeIds ((finishTweet { s with log := s.log ++ newEvs } t2 scraped).log)
      = scrapeIds s.log ++ scrapeIds newEvs := by
    rw [hlog2, scrapeIds_append, scrapeIds_append, scrapeIds_proc_write, List.append_nil]
  have hfetch2 : fetchedIds ((finishTweet { s with log := s.log ++ newEvs } t2 scraped).log)
      = fetchedIds s.log := by
    rw [hlog2, fetchedIds_append, fetchedIds_append, fetchedIds_proc_write,
      List.append_nil, hfetch, List.append_nil]
  refine
    { k0_sub := ?_, t0_ids := hInv.t0_ids, tweets_nodup := ?_, tweets_known := ?_
      batch_known := ?_, batch_fresh := ?_, fetched_batch_nodup := ?_
      fetched_batch_new := ?_, fetched_known := ?_, scrape_nodup := ?_
      scrape_processed := ?_, processed_expand := ?_, pend_origin := ?_
      scrape_init := ?_ }
  · intro x hx
    exact List.mem_append_left _ (hInv.k0_sub x hx)
  · show (((s.processedTweets ++ [t2]) ++ rest).map (·.id)).Nodup
    have : ((s.processedTweets ++ [t2]) ++ rest).map (·.id)
        = (s.processedTweets ++ t :: rest).map (·.id) := by
      simp [hid]
    rw [this]
    exact hInv.tweets_nodup
  · intro u hu
    show u.id ∈ s.known ++ newRefs t2 scraped s.known
    apply List.mem_append_left
    rcases List.mem_append.mp hu with hu | hu
    · rcases List.mem_append.mp hu with hu | hu
      · exact hInv.tweets_known u (by simp [hu])
      · rw [List.mem_singleton] at hu
        subst hu
        rw [hid]
        exact htid_known
    · exact hInv.tweets_known u (by simp [hu])
  · intro x hx
    rcases List.mem_append.mp hx with hx | hx
    · exact List.mem_append_left _ (hInv.batch_known x hx)
    · exact List.mem_append_right _ hx
  · intro x hx u hu
    replace hx : x ∈ s.batch ++ newRefs t2 scraped s.known := hx
    replace hu : u ∈ (s.processedTweets ++ [t2]) ++ rest := hu
    have hu_known : u.id ∈ s.known := by
      rcases List.mem_append.mp hu with hu | hu
      · rcases List.mem_append.mp hu with hu | hu
        · exact hInv.tweets_known u (by simp [hu])
        · rw [List.mem_singleton] at hu
          subst hu
          rw [hid]
          exact htid_known
      · exact hInv.tweets_known u (by simp [hu])
    rcases List.mem_append.mp hx with hx1 | hx1
    · rcases List.mem_append.mp hu with hu1 | hu1
      · rcases List.mem_append.mp hu1 with hu2 | hu2
        · exact hInv.batch_fresh x hx1 u (by simp [hu2])
        · rw [List.mem_singleton] at hu2
          subst hu2
          rw [hid]
          exact hInv.batch_fresh x hx1 t (by simp)
      · exact hInv.batch_fresh x hx1 u (by simp [hu1])
    · intro hxu
      exact (hrefs_new x hx1) (hxu ▸ hu_known)
  · show (fetchedIds ((finishTweet { s with log := s.log ++ newEvs } t2 scraped).log)
        ++ (s.batch ++ newRefs t2 scraped s.known)).Nodup
    rw [hfetch2, ← List.append_assoc]
    refine List.Nodup.append hInv.fetched_batch_nodup hrefs_nodup ?_
    intro a ha har
    have ha_known : a ∈ s.known := by
      rcases List.mem_append.mp ha with ha | ha
      · exact hInv.fetched_known a ha
      · exact hInv.batch_known a ha
    exact (hrefs_new a har) ha_known
  · intro x hx
    replace hx : x ∈ fetchedIds ((finishTweet { s with log := s.log ++ newEvs } t2 scraped).log)
        ++ (s.batch ++ newRefs t2 scraped s.known) := hx
    rw [hfetch2, ← List.append_assoc] at hx
    rcases List.mem_append.mp hx with hx | hx
    · exact hInv.fetched_batch_new x hx
    · intro hx0
      exact (hrefs_new x hx) (hInv.k0_sub x hx0)
  · intro x hx
    rw [hfetch2] at hx
    exact List.mem_append_left _ (hInv.fetched_known x hx)
  · rw [hscrape2]
    rcases hscr with h | ⟨h, _⟩
    · rw [h, List.append_nil]
      exact hInv.scrape_nodup
    · rw [h]
      refine List.Nodup.append hInv.scrape_nodup (by simp) ?_
      intro a ha hat
      rw [List.mem_singleton] at hat
      subst hat
      exact ht_notin_processed (hInv.scrape_processed _ ha)
  · intro x hx
    rw [hscrape2] at hx
    show x ∈ (s.processedTweets ++ [t2]).map (·.id)
    rw [List.map_append]
    rcases List.mem_append.mp hx with hx | hx
    · exact List.mem_append_left _ (hInv.scrape_processed x hx)
    · rcases hscr with h | ⟨h, _⟩
      · rw [h] at hx
        exact absurd hx (by simp)
      · rw [h, List.mem_singleton] at hx
        subst hx
        apply List.mem_append_right
        simp [hid]
  · intro u hu hexpu
    rcases List.mem_append.mp hu with hu | hu
    · exact hInv.processed_expand u hu hexpu
    · rw [List.mem_singleton] at hu
      subst hu
      exact hexp hexpu
  · intro u hu
    exact hInv.pend_origin u (by simp [hu])
  · intro x hx t0 ht0 ht0x
    rw [hscrape2] at hx
    rcases List.mem_append.mp hx with hx | hx
    · exact hInv.scrape_init x hx t0 ht0 ht0x
    · rcases hscr with h | ⟨h, hempty⟩
      · rw [h] at hx
        exact absurd hx (by simp)
      · rw [h, List.mem_singleton] at hx
        subst hx
        rcases hInv.pend_origin t (by simp) with htT0 | htT0
        · have : t0 = t := List.inj_on_of_nodup_map hT0 ht0 htT0 ht0x
          rw [this]
          exact hempty
        · exact absurd (ht0x ▸ List.mem_map_of_mem (·.id) ht0) htT0

theorem exitFacts_of_inv {env : Env} {T0 : List Tweet} {K0 : List String}
    {s : Store} {pend : List Tweet} (hInv : RunInv env T0 K0 s pend) :
    ExitFacts env T0 K0 s :=
  { scrape_nodup := hInv.scrape_nodup
    scrape_init := hInv.scrape_init
    fetched_nodup := hInv.fetched_batch_nodup.of_append_left
    fetched_new := fun x hx => hInv.fetched_batch_new x (List.mem_append_left _ hx)
    processed_expand := hInv.processed_expand }

theorem should_scrape_true {expand : List String} {t : Tweet}
    (h : should_scrape expand t = true) :
    (t.scraped_refs.getD []).isEmpty = true ∧ t.author_id ∈ expand := by
  simpa [should_scrape] using h

theorem not_should_scrape_expand {expand : List String} {t : Tweet}
    (h : ¬ should_scrape expand t = true) (hmem : t.author_id ∈ expand) :
    ∃ l, t.scraped_refs = some l ∧ l ≠ [] := by
  simp only [should_scrape, Bool.and_eq_true, decide_eq_true_eq, not_and] at h
  cases hsr : t.scraped_refs with
  | none =>
    exfalso
    apply h _ hmem
    rw [hsr]
    rfl
  | some l =>
    refine ⟨l, rfl, ?_⟩
    intro hl
    apply h _ hmem
    rw [hsr, hl]
    rfl

/-- The store after logging a scrape request for the head of the pending list
(plus trailing non-scrape events `tail`) satisfies the exit facts. -/
theorem exit_facts_scrape {env : Env} {T0 : List Tweet} {K0 : List String}
    {s : Store} {t : Tweet} {rest : List Tweet} (tail : List Ev)
    (hT0 : (T0.map (·.id)).Nodup)
    (hInv : RunInv env T0 K0 s (t :: rest))
    (hempty : (t.scraped_refs.getD []).isEmpty = true)
    (htail_s : scrapeIds tail = []) (htail_f : fetchedIds tail = []) :
    ExitFacts env T0 K0 { s with log := s.log ++ [Ev.scrapeReq t.id] ++ tail } := by
  have hmapids : ((s.processedTweets ++ t :: rest).map (·.id))
      = s.processedTweets.map (·.id) ++ t.id :: rest.map (·.id) := by simp
  have ht_notin_processed : t.id ∉ s.processedTweets.map (·.id) := by
    have hnd := hInv.tweets_nodup
    rw [hmapids] at hnd
    intro hmem
    exact (List.disjoint_of_nodup_append hnd) hmem (by simp)
  have hscrape2 : scrapeIds (s.log ++ [Ev.scrapeReq t.id] ++ tail)
      = scrapeIds s.log ++ [t.id] := by
    rw [scrapeIds_append, scrapeIds_append, scrapeIds_req, htail_s, List.append_nil]
  have hfetch2 : fetchedIds (s.log ++ [Ev.scrapeReq t.id] ++ tail)
      = fetchedIds s.log := by
    rw [fetchedIds_append, fetchedIds_append, fetchedIds_req, htail_f]
    simp
  refine { scrape_nodup := ?_, scrape_init := ?_, fetched_nodup := ?_
           fetched_new := ?_, processed_expand := hInv.processed_expand }
  · show (scrapeIds (s.log ++ [Ev.scrapeReq t.id] ++ tail)).Nodup
    rw [hscrape2]
    refine List.Nodup.append hInv.scrape_nodup (by simp) ?_
    intro a ha hat
    rw [List.mem_singleton] at hat
    subst hat
    exact ht_notin_processed (hInv.scrape_processed _ ha)
  · intro x hx t0 ht0 ht0x
    replace hx : x ∈ scrapeIds (s.log ++ [Ev.scrapeReq t.id] ++ tail) := hx
    rw [hscrape2] at hx
    rcases List.mem_append.mp hx with hx1 | hx1
    · exact hInv.scrape_init x hx1 t0 ht0 ht0x
    · rw [List.mem_singleton] at hx1
      subst hx1
      rcases hInv.pend_origin t (by simp) with htT0 | htT0
      · have : t0 = t := List.inj_on_of_nodup_map hT0 ht0 htT0 ht0x
        rw [this]
        exact hempty
      · exact absurd (ht0x ▸ List.mem_map_of_mem (·.id) ht0) htT0
  · show (fetchedIds (s.log ++ [Ev.scrapeReq t.id] ++ tail)).Nodup
    rw [hfetch2]
    exact hInv.fetched_batch_nodup.of_append_left
  · intro x hx
    replace hx : x ∈ fetchedIds (s.log ++ [Ev.scrapeReq t.id] ++ tail) := hx
    rw [hfetch2] at hx
    exact hInv.fetched_batch_new x (List.mem_append_left _ hx)

theorem runPass_inv {env : Env} {T0 : List Tweet} {K0 : List String}
    (hT0 : (T0.map (·.id)).Nodup) :
    ∀ (pend : List Tweet) (s : Store), RunInv env T0 K0 s pend →
    (∀ s1, runPass env s pend = .ok s1 → RunInv env T0 K0 s1 [])
    ∧ (∀ s1 r, runPass env s pend = .interrupted s1 r → ExitFacts env T0 K0 s1)
    ∧ (∀ s1 r, runPass env s pend = .fatal s1 r → ExitFacts env T0 K0 s1) := by
  intro pend
  induction pend with
  | nil =>
    intro s hInv
    refine ⟨?_, ?_, ?_⟩
    · intro s1 h
      simp only [runPass, PassResult.ok.injEq] at h
      exact h ▸ hInv
    · intro s1 r h
      simp only [runPass] at h
      exact absurd h (by simp)
    · intro s1 r h
      simp only [runPass] at h
      exact absurd h (by simp)
  | cons t rest ih =>
    intro s hInv
    by_cases hs : should_scrape env.expand_ids t = true
    · obtain ⟨hempty, _⟩ := should_scrape_true hs
      cases hscr : env.scrape t.id with
      | error e =>
        cases e with
        | interrupt =>
          have hres : runPass env s (t :: rest)
              = .interrupted { s with log := s.log ++ [Ev.scrapeReq t.id] ++ [Ev.writeCall] }
                  (t :: rest) := by
            simp only [runPass, if_pos hs, hscr]
          refine ⟨?_, ?_, ?_⟩
          · intro s1 h
            rw [hres] at h
            exact absurd h (by simp)
          · intro s1 r h
            rw [hres] at h
            simp only [PassResult.interrupted.injEq] at h
            exact h.1 ▸ exit_facts_scrape [Ev.writeCall] hT0 hInv hempty rfl rfl
          · intro s1 r h
            rw [hres] at h
            exact absurd h (by simp)
        | httpFatal m =>
          have hres : runPass env s (t :: rest)
              = .fatal { s with log := s.log ++ [Ev.scrapeReq t.id] } (t :: rest) := by
            simp only [runPass, if_pos hs, hscr]
          have hexit : ExitFacts env T0 K0 { s with log := s.log ++ [Ev.scrapeReq t.id] } := by
            have h := exit_facts_scrape [] hT0 hInv hempty rfl rfl
            have heq : ({ s with log := s.log ++ [Ev.scrapeReq t.id] ++ ([] : List Ev) } : Store)
                = { s with log := s.log ++ [Ev.scrapeReq t.id] } := by
              simp
            rw [heq] at h
            exact h
          refine ⟨?_, ?_, ?_⟩
          · intro s1 h
            rw [hres] at h
            exact absurd h (by simp)
          · intro s1 r h
            rw [hres] at h
            exact absurd h (by simp)
          · intro s1 r h
            rw [hres] at h
            simp only [PassResult.fatal.injEq] at h
            exact h.1 ▸ hexit
      | ok resp =>
        cases hp : parse_scrape_response resp with
        | error m =>
          have hres : runPass env s (t :: rest)
              = .fatal { s with log := s.log ++ [Ev.scrapeReq t.id] } (t :: rest) := by
            simp only [runPass, if_pos hs, hscr, hp]
          have hexit : ExitFacts env T0 K0 { s with log := s.log ++ [Ev.scrapeReq t.id] } := by
            have h := exit_facts_scrape [] hT0 hInv hempty rfl rfl
            have heq : ({ s with log := s.log ++ [Ev.scrapeReq t.id] ++ ([] : List Ev) } : Store)
                = { s with log := s.log ++ [Ev.scrapeReq t.id] } := by
              simp
            rw [heq] at h
            exact h
          refine ⟨?_, ?_, ?_⟩
          · intro s1 h
            rw [hres] at h
            exact absurd h (by simp)
          · intro s1 r h
            rw [hres] at h
            exact absurd h (by simp)
          · intro s1 r h
            rw [hres] at h
            simp only [PassResult.fatal.injEq] at h
            exact h.1 ▸ hexit
        | ok refs =>
          have hres : runPass env s (t :: rest)
              = runPass env
                  (finishTweet { s with log := s.log ++ [Ev.scrapeReq t.id] }
                    { t with scraped_refs := some refs } refs) rest := by
            simp only [runPass, if_pos hs, hscr, hp]
          have hInv2 : RunInv env T0 K0
              (finishTweet { s with log := s.log ++ [Ev.scrapeReq t.id] }
                { t with scraped_refs := some refs } refs) rest :=
            step_inv refs [Ev.scrapeReq t.id] hT0 hInv rfl
              (fun _ => ⟨refs, rfl, parse_scrape_response_ne_nil resp refs hp⟩)
              (Or.inr ⟨rfl, hempty⟩) rfl
          rw [hres]
          exact ih _ hInv2
    · have hres : runPass env s (t :: rest)
          = runPass env (finishTweet s t (t.scraped_refs.getD [])) rest := by
        simp only [runPass, if_neg hs]
      have h := step_inv (t.scraped_refs.getD []) [] hT0 hInv rfl
        (not_should_scrape_expand hs) (Or.inl rfl) rfl
      have heq : ({ s with log := s.log ++ ([] : List Ev) } : Store) = s := by
        simp
      rw [heq] at h
      rw [hres]
      exact ih _ h

theorem fetchFold_spec (env : Env) :
    ∀ (chunks : List (List String)) (s : Store) (acc : List Tweet),
    (chunks.foldl (fetchChunk env) (s, acc)).1
      = { s with
          errors := s.errors ++ chunks.flatMap (fun c => (env.fetch c).2)
          log := s.log ++ chunks.flatMap (fun c => [Ev.fetchReq c, Ev.writeCall]) }
    ∧ (chunks.foldl (fetchChunk env) (s, acc)).2
      = acc ++ chunks.flatMap (fun c => (env.fetch c).1) := by
  intro chunks
  induction chunks with
  | nil =>
    intro s acc
    constructor <;> simp
  | cons c cs ih =>
    intro s acc
    simp only [List.foldl_cons, fetchChunk]
    obtain ⟨h1, h2⟩ := ih
      { s with
        errors := s.errors ++ (env.fetch c).2
        log := s.log ++ [Ev.fetchReq c, Ev.writeCall] }
      (acc ++ (env.fetch c).1)
    refine ⟨?_, ?_⟩
    · rw [h1]
      simp [List.append_assoc]
    · rw [h2]
      simp [List.append_assoc]

theorem scrapeIds_flatMap_fetch (cs : List (List String)) :
    scrapeIds (cs.flatMap fun c => [Ev.fetchReq c, Ev.writeCall]) = [] := by
  induction cs with
  | nil => rfl
  | cons c cs ih =>
    rw [List.flatMap_cons, scrapeIds_append, ih, scrapeIds_fetch_write]
    rfl

theorem fetchedIds_flatMap_fetch (cs : List (List String)) :
    fetchedIds (cs.flatMap fun c => [Ev.fetchReq c, Ev.writeCall]) = cs.flatten := by
  induction cs with
  | nil => rfl
  | cons c cs ih =>
    rw [List.flatMap_cons, fetchedIds_append, ih, fetchedIds_fetch_write,
      List.flatten_cons]

theorem flatMap_fetch_ids_sub {env : Env} (hF : FetchSound env) :
    ∀ (cs : List (List String)), ∀ u ∈ cs.flatMap (fun c => (env.fetch c).1),
    u.id ∈ cs.flatten := by
  intro cs
  induction cs with
  | nil => intro u hu; simp at hu
  | cons c cs ih =>
    intro u hu
    rw [List.flatMap_cons, List.mem_append] at hu
    rw [List.flatten_cons, List.mem_append]
    rcases hu with hu | hu
    · exact Or.inl ((hF c).2 u hu).1
    · exact Or.inr (ih u hu)

theorem flatMap_fetch_srefs {env : Env} (hF : FetchSound env) :
    ∀ (cs : List (List String)), ∀ u ∈ cs.flatMap (fun c => (env.fetch c).1),
    u.scraped_refs = none := by
  intro cs
  induction cs with
  | nil => intro u hu; simp at hu
  | cons c cs ih =>
    intro u hu
    rw [List.flatMap_cons, List.mem_append] at hu
    rcases hu with hu | hu
    · exact ((hF c).2 u hu).2
    · exact ih u hu

theorem flatMap_fetch_ids_nodup {env : Env} (hF : FetchSound env) :
    ∀ (cs : List (List String)), cs.flatten.Nodup →
    ((cs.flatMap fun c => (env.fetch c).1).map (·.id)).Nodup := by
  intro cs
  induction cs with
  | nil => intro _; simp
  | cons c cs ih =>
    intro hnd
    rw [List.flatten_cons] at hnd
    have hdisj := List.disjoint_of_nodup_append hnd
    rw [List.flatMap_cons, List.map_append]
    refine List.Nodup.append (hF c).1 (ih hnd.of_append_right) ?_
    intro a ha ha2
    obtain ⟨u, hu, hua⟩ := List.mem_map.mp ha
    obtain ⟨v, hv, hva⟩ := List.mem_map.mp ha2
    have huc : a ∈ c := hua ▸ ((hF c).2 u hu).1
    have hvf : a ∈ cs.flatten := hva ▸ flatMap_fetch_ids_sub hF cs v hv
    exact hdisj huc hvf

theorem fetchPhase_inv {env : Env} {T0 : List Tweet} {K0 : List String}
    (hF : FetchSound env) {s : Store} (hInv : RunInv env T0 K0 s []) :
    RunInv env T0 K0 (fetchPhase env s).1 (fetchPhase env s).2 := by
  obtain ⟨h1, h2⟩ := fetchFold_spec env (chunks100 s.batch) s []
  have hp1 : (fetchPhase env s).1
      = { s with
          errors := s.errors ++ (chunks100 s.batch).flatMap (fun c => (env.fetch c).2)
          log := s.log ++ (chunks100 s.batch).flatMap (fun c => [Ev.fetchReq c, Ev.writeCall])
          batch := [] } := by
    show ({ ((chunks100 s.batch).foldl (fetchChunk env) (s, [])).1 with batch := [] } : Store) = _
    rw [h1]
  have hp2 : (fetchPhase env s).2
      = (chunks100 s.batch).flatMap (fun c => (env.fetch c).1) := by
    show ((chunks100 s.batch).foldl (fetchChunk env) (s, [])).2 = _
    rw [h2]
    simp
  have hscrapeL : scrapeIds ((fetchPhase env s).1).log = scrapeIds s.log := by
    rw [hp1]
    show scrapeIds (s.log ++ _) = _
    rw [scrapeIds_append, scrapeIds_flatMap_fetch, List.append_nil]
  have hfetchL : fetchedIds ((fetchPhase env s).1).log = fetchedIds s.log ++ s.batch := by
    rw [hp1]
    show fetchedIds (s.log ++ _) = _
    rw [fetchedIds_append, fetchedIds_flatMap_fetch, chunks100_flatten]
  have hbatch_nodup : s.batch.Nodup := hInv.fetched_batch_nodup.of_append_right
  have hnewT_sub : ∀ u ∈ (fetchPhase env s).2, u.id ∈ s.batch := by
    intro u hu
    rw [hp2] at hu
    have := flatMap_fetch_ids_sub hF (chunks100 s.batch) u hu
    rwa [chunks100_flatten] at this
  have hproc : ((fetchPhase env s).1).processedTweets = s.processedTweets := by
    rw [hp1]
  have hknown : ((fetchPhase env s).1).known = s.known := by
    rw [hp1]
  have hbatch : ((fetchPhase env s).1).batch = [] := by
    rw [hp1]
  refine
    { k0_sub := ?_, t0_ids := hInv.t0_ids, tweets_nodup := ?_, tweets_known := ?_
      batch_known := ?_, batch_fresh := ?_, fetched_batch_nodup := ?_
      fetched_batch_new := ?_, fetched_known := ?_, scrape_nodup := ?_
      scrape_processed := ?_, processed_expand := ?_, pend_origin := ?_
      scrape_init := ?_ }
  · intro x hx
    rw [hknown]
    exact hInv.k0_sub x hx
  · rw [hproc, List.map_append]
    have hleft : (s.processedTweets.map (·.id)).Nodup := by
      have := hInv.tweets_nodup
      rw [List.append_nil] at this
      exact this
    have hright : (((fetchPhase env s).2).map (·.id)).Nodup := by
      rw [hp2]
      apply flatMap_fetch_ids_nodup hF
      rw [chunks100_flatten]
      exact hbatch_nodup
    refine List.Nodup.append hleft hright ?_
    intro a ha ha2
    obtain ⟨u, hu, hua⟩ := List.mem_map.mp ha
    obtain ⟨v, hv, hva⟩ := List.mem_map.mp ha2
    have hvb : a ∈ s.batch := hva ▸ hnewT_sub v hv
    exact hInv.batch_fresh a hvb u (by simp [hu]) hua.symm
  · intro u hu
    rw [hknown]
    rcases List.mem_append.mp (hproc ▸ hu) with hu1 | hu1
    · exact hInv.tweets_known u (by simp [hu1])
    · exact hInv.batch_known _ (hnewT_sub u hu1)
  · intro x hx
    rw [hbatch] at hx
    exact absurd hx (by simp)
  · intro x hx
    rw [hbatch] at hx
    exact absurd hx (by simp)
  · rw [hfetchL, hbatch, List.append_nil]
    exact hInv.fetched_batch_nodup
  · intro x hx
    rw [hfetchL, hbatch, List.append_nil] at hx
    exact hInv.fetched_batch_new x hx
  · intro x hx
    rw [hknown]
    rw [hfetchL] at hx
    rcases List.mem_append.mp hx with hx1 | hx1
    · exact hInv.fetched_known x hx1
    · exact hInv.batch_known x hx1
  · rw [hscrapeL]
    exact hInv.scrape_nodup
  · intro x hx
    rw [hscrapeL] at hx
    rw [hproc]
    exact hInv.scrape_processed x hx
  · intro u hu
    rw [hproc] at hu
    exact hInv.processed_expand u hu
  · intro u hu
    right
    intro hmem
    have huK0 : u.id ∉ K0 :=
      hInv.fetched_batch_new u.id (List.mem_append_right _ (hnewT_sub u hu))
    obtain ⟨t0, ht0, ht0u⟩ := List.mem_map.mp hmem
    exact huK0 (ht0u ▸ hInv.t0_ids t0 ht0)
  · intro x hx
    rw [hscrapeL] at hx
    exact hInv.scrape_init x hx

theorem closureLoop_inv {env : Env} {T0 : List Tweet} {K0 : List String}
    (hT0 : (T0.map (·.id)).Nodup) (hF : FetchSound env) :
    ∀ (fuel : Nat) (s : Store) (pend : List Tweet), RunInv env T0 K0 s pend →
    (∀ s1, closureLoop env fuel s pend = .done s1 → RunInv env T0 K0 s1 [])
    ∧ (∀ s1 r, closureLoop env fuel s pend = .interrupted s1 r → ExitFacts env T0 K0 s1)
    ∧ (∀ s1 r, closureLoop env fuel s pend = .fatal s1 r → ExitFacts env T0 K0 s1)
    ∧ (∀ s1 r, closureLoop env fuel s pend = .outOfFuel s1 r → ExitFacts env T0 K0 s1) := by
  intro fuel
  induction fuel with
  | zero =>
    intro s pend hInv
    refine ⟨?_, ?_, ?_, ?_⟩
    · intro s1 h
      simp only [closureLoop] at h
      exact absurd h (by simp)
    · intro s1 r h
      simp only [closureLoop] at h
      exact absurd h (by simp)
    · intro s1 r h
      simp only [closureLoop] at h
      exact absurd h (by simp)
    · intro s1 r h
      simp only [closureLoop, RunResult.outOfFuel.injEq] at h
      exact h.1 ▸ exitFacts_of_inv hInv
  | succ fuel ih =>
    intro s pend hInv
    have hrp := runPass_inv hT0 pend s hInv
    cases hr : runPass env s pend with
    | interrupted s2 r2 =>
      have hres : closureLoop env (fuel + 1) s pend = .interrupted s2 r2 := by
        simp only [closureLoop, hr]
      have hexit := hrp.2.1 s2 r2 hr
      refine ⟨?_, ?_, ?_, ?_⟩
      · intro s1 h
        rw [hres] at h
        exact absurd h (by simp)
      · intro s1 r h
        rw [hres] at h
        simp only [RunResult.interrupted.injEq] at h
        exact h.1 ▸ hexit
      · intro s1 r h
        rw [hres] at h
        exact absurd h (by simp)
      · intro s1 r h
        rw [hres] at h
        exact absurd h (by simp)
    | fatal s2 r2 =>
      have hres : closureLoop env (fuel + 1) s pend = .fatal s2 r2 := by
        simp only [closureLoop, hr]
      have hexit := hrp.2.2 s2 r2 hr
      refine ⟨?_, ?_, ?_, ?_⟩
      · intro s1 h
        rw [hres] at h
        exact absurd h (by simp)
      · intro s1 r h
        rw [hres] at h
        exact absurd h (by simp)
      · intro s1 r h
        rw [hres] at h
        simp only [RunResult.fatal.injEq] at h
        exact h.1 ▸ hexit
      · intro s1 r h
        rw [hres] at h
        exact absurd h (by simp)
    | ok s2 =>
      have hInv2 : RunInv env T0 K0 s2 [] := hrp.1 s2 hr
      by_cases hb : s2.batch.isEmpty
      · have hres : closureLoop env (fuel + 1) s pend = .done s2 := by
          simp only [closureLoop, hr]
          rw [if_pos hb]
        refine ⟨?_, ?_, ?_, ?_⟩
        · intro s1 h
          rw [hres] at h
          simp only [RunResult.done.injEq] at h
          exact h ▸ hInv2
        · intro s1 r h
          rw [hres] at h
          exact absurd h (by simp)
        · intro s1 r h
          rw [hres] at h
          exact absurd h (by simp)
        · intro s1 r h
          rw [hres] at h
          exact absurd h (by simp)
      · have hres : closureLoop env (fuel + 1) s pend
            = closureLoop env fuel (fetchPhase env s2).1 (fetchPhase env s2).2 := by
          simp only [closureLoop, hr]
          rw [if_neg hb]
        have hInv3 := fetchPhase_inv hF hInv2
        rw [hres]
        exact ih (fetchPhase env s2).1 (fetchPhase env s2).2 hInv3

theorem init_inv (env : Env) (db : DB) (hnd : (db.tweets.map (·.id)).Nodup) :
    RunInv env db.tweets ((initStore db).known) (initStore db) db.tweets := by
  have hids : ∀ t ∈ db.tweets, t.id ∈ (initStore db).known := by
    intro t ht
    show t.id ∈ get_known db ++ _
    apply List.mem_append_left
    unfold get_known
    exact List.mem_append_left _ (List.mem_append_left _ (List.mem_map_of_mem _ ht))
  refine
    { k0_sub := fun x hx => hx, t0_ids := hids, tweets_nodup := ?_, tweets_known := ?_
      batch_known := ?_, batch_fresh := ?_, fetched_batch_nodup := ?_
      fetched_batch_new := ?_, fetched_known := ?_, scrape_nodup := ?_
      scrape_processed := ?_, processed_expand := ?_, pend_origin := ?_
      scrape_init := ?_ }
  · show ((([] : List Tweet) ++ db.tweets).map (·.id)).Nodup
    rw [List.nil_append]
    exact hnd
  · intro t ht
    rw [show (initStore db).processedTweets = [] from rfl, List.nil_append] at ht
    exact hids t ht
  · intro x hx
    exact absurd hx (by simp [initStore])
  · intro x hx
    exact absurd hx (by simp [initStore])
  · show (fetchedIds (initStore db).log ++ (initStore db).batch).Nodup
    simp [initStore, fetchedIds, fetchReqs]
  · intro x hx
    exact absurd hx (by simp [initStore, fetchedIds, fetchReqs])
  · intro x hx
    exact absurd hx (by simp [initStore, fetchedIds, fetchReqs])
  · show (scrapeIds (initStore db).log).Nodup
    simp [initStore, scrapeIds]
  · intro x hx
    exact absurd hx (by simp [initStore, scrapeIds])
  · intro t ht
    exact absurd ht (by simp [initStore])
  · intro t ht
    exact Or.inl ht
  · intro x hx
    exact absurd hx (by simp [initStore, scrapeIds])

/-- Every closure run, whatever its exit path, satisfies the exit facts with
respect to the initial database. -/
theorem run_exit_facts {env : Env} (fuel : Nat) (db : DB)
    (hF : FetchSound env) (hnd : (db.tweets.map (·.id)).Nodup) :
    ExitFacts env db.tweets ((initStore db).known) (do_reply_closure env fuel db).store := by
  have h := closureLoop_inv hnd hF fuel (initStore db) db.tweets (init_inv env db hnd)
  show ExitFacts env db.tweets ((initStore db).known)
    (closureLoop env fuel (initStore db) db.tweets).store
  cases hres : closureLoop env fuel (initStore db) db.tweets with
  | done s1 => exact exitFacts_of_inv (h.1 s1 hres)
  | interrupted s1 r => exact h.2.1 s1 r hres
  | fatal s1 r => exact h.2.2.1 s1 r hres
  | outOfFuel s1 r => exact h.2.2.2 s1 r hres

/-- Claim C1: when a closure run terminates normally, the final database's
tweet list is exactly the scanned prefix, every tweet in it whose author is
in the expand set carries a set, non-empty `scraped_refs` value (a real id
list or a sentinel list), and the scrape endpoint was invoked at most once
per tweet id during the run.  The upstream-API soundness hypothesis
`FetchSound` and the id-uniqueness of the initial database are the standing
well-formedness assumptions of the data model. -/
theorem closure_completeness (env : Env) (fuel : Nat) (db : DB) (s : Store)
    (hF : FetchSound env) (hnd : (db.tweets.map (·.id)).Nodup)
    (hrun : do_reply_closure env fuel db = .done s) :
    (do_reply_closure env fuel db).finalTweets = s.processedTweets
    ∧ (∀ t ∈ s.processedTweets, t.author_id ∈ env.expand_ids →
        ∃ l, t.scraped_refs = some l ∧ l ≠ [])
    ∧ (∀ x : String, (scrapeIds s.log).count x ≤ 1) := by
  have h := (closureLoop_inv hnd hF fuel (initStore db) db.tweets
    (init_inv env db hnd)).1 s hrun
  refine ⟨?_, h.processed_expand, List.nodup_iff_count_le_one.mp h.scrape_nodup⟩
  rw [hrun]
  simp [RunResult.finalTweets, RunResult.store, RunResult.restPending]

theorem closure_completeness_witness :
    (∃ l, (Tweet.mk "1" "A" [] (some ["tweet_was_deleted"])).scraped_refs
        = some l ∧ l ≠ [])
    ∧ (scrapeIds (Store.mk [Tweet.mk "1" "A" [] (some ["tweet_was_deleted"])] []
        ["1", "couldnt_scrape", "tweet_was_deleted"] []
        [Ev.scrapeReq "1", Ev.processed "1", Ev.writeCall]).log).count "1" ≤ 1 := by
  have h := closure_completeness envDeleted 3 dbOne
    (Store.mk [Tweet.mk "1" "A" [] (some ["tweet_was_deleted"])] []
      ["1", "couldnt_scrape", "tweet_was_deleted"] []
      [Ev.scrapeReq "1", Ev.processed "1", Ev.writeCall])
    (fun req => ⟨by simp [envDeleted], by simp [envDeleted]⟩)
    (by decide) (by decide)
  exact ⟨h.2.1 _ (by decide) (by decide), h.2.2 "1"⟩

/-- Claim C6 counterexample: scrape requests always target ids that are
already in the known set — the focal id of a scrape is the id of a stored
tweet, and every stored tweet's id is in `get_known` from the start of the
run.  In this concrete run the id `"1"` is known before the closure loop
starts, yet a scrape request for `"1"` is subsequently issued. -/
theorem known_id_scraped :
    "1" ∈ get_known dbOne
    ∧ Ev.scrapeReq "1" ∈ (do_reply_closure envDeleted 3 dbOne).runLog := by
  decide

/-- Claim C6 (amended): no id is ever re-fetched — over any closure run, the
ids sent in by-id fetch requests are pairwise distinct (no id is fetched
twice) and none of them was in the known set `get_known` at the start of the
run (previously fetched, errored and sentinel ids are never fetched again);
and the scrape endpoint is invoked at most once per tweet id.  Scrape
requests themselves, however, necessarily target known ids (the ids of
stored tweets), so the claim's exclusion of known ids holds for fetch
requests and for repeat scrapes, not for the scrape of a stored tweet's own
id. -/
theorem no_refetch_amended (env : Env) (fuel : Nat) (db : DB)
    (hF : FetchSound env) (hnd : (db.tweets.map (·.id)).Nodup) :
    (fetchedIds (do_reply_closure env fuel db).runLog).Nodup
    ∧ (∀ x ∈ fetchedIds (do_reply_closure env fuel db).runLog, x ∉ get_known db)
    ∧ (scrapeIds (do_reply_closure env fuel db).runLog).Nodup := by
  have hexit := run_exit_facts fuel db hF hnd
  refine ⟨hexit.fetched_nodup, ?_, hexit.scrape_nodup⟩
  intro x hx hgk
  exact hexit.fetched_new x hx (List.mem_append_left _ hgk)

theorem no_refetch_amended_witness :
    (fetchedIds (do_reply_closure envDeleted 3 dbOne).runLog).Nodup
    ∧ (∀ x ∈ fetchedIds (do_reply_closure envDeleted 3 dbOne).runLog,
        x ∉ get_known dbOne)
    ∧ (scrapeIds (do_reply_closure envDeleted 3 dbOne).runLog).Nodup :=
  no_refetch_amended envDeleted 3 dbOne
    (fun req => ⟨by simp [envDeleted], by simp [envDeleted]⟩) (by decide)

/-- Claim C2: under the well-formedness assumption that the scrape response's
entries never carry a sentinel string as a tweet id (real ids are numeric),
`get_related_tweets` returns `["tweet_was_deleted"]` exactly when the
response carries no data payload, and `["couldnt_scrape"]` exactly when the
response parses but yields zero tweet entries; and a stored non-empty
`scraped_refs` (in particular either sentinel list) is terminal — on any
subsequent run, no scrape request is ever issued for that tweet's id.  -/
theorem scrape_sentinels (r : ScrapeResponse)
    (h : ∀ l, parse_entries r.entries [] = .ok l →
      "tweet_was_deleted" ∉ l ∧ "couldnt_scrape" ∉ l) :
    (parse_scrape_response r = .ok ["tweet_was_deleted"] ↔ r.hasData = false)
    ∧ (parse_scrape_response r = .ok ["couldnt_scrape"] ↔
        r.hasData = true ∧ parse_entries r.entries [] = .ok [])
    ∧ (∀ (env : Env) (fuel : Nat) (db : DB), FetchSound env →
        (db.tweets.map (·.id)).Nodup →
        ∀ t ∈ db.tweets, ∀ l, t.scraped_refs = some l → l ≠ [] →
        Ev.scrapeReq t.id ∉ (do_reply_closure env fuel db).runLog) := by
  refine ⟨parse_deleted_iff r h, parse_couldnt_iff r h, ?_⟩
  intro env fuel db hF hnd t ht l hl hlne hmem
  have hexit := run_exit_facts fuel db hF hnd
  have hx : t.id ∈ scrapeIds ((do_reply_closure env fuel db).store.log) :=
    mem_scrapeIds.mpr hmem
  have hterm := hexit.scrape_init t.id hx t ht rfl
  rw [hl, Option.getD_some] at hterm
  exact hlne (List.isEmpty_iff.mp hterm)

theorem scrape_sentinels_witness :
    (parse_scrape_response ⟨false, []⟩ = .ok ["tweet_was_deleted"] ↔
      (ScrapeResponse.mk false []).hasData = false)
    ∧ (parse_scrape_response ⟨false, []⟩ = .ok ["couldnt_scrape"] ↔
        (ScrapeResponse.mk false []).hasData = true
          ∧ parse_entries (ScrapeResponse.mk false []).entries [] = .ok [])
    ∧ (∀ (env : Env) (fuel : Nat) (db : DB), FetchSound env →
        (db.tweets.map (·.id)).Nodup →
        ∀ t ∈ db.tweets, ∀ l, t.scraped_refs = some l → l ≠ [] →
        Ev.scrapeReq t.id ∉ (do_reply_closure env fuel db).runLog) :=
  scrape_sentinels ⟨false, []⟩
    (by
      intro l hl
      simp only [parse_entries, Except.ok.injEq] at hl
      subst hl
      exact ⟨by simp, by simp⟩)

theorem runPass_sr {env : Env} :
    ∀ (pend : List Tweet) (s : Store),
    (∀ t ∈ s.processedTweets ++ pend, SRok t) →
    (∀ s1, runPass env s pend = .ok s1 → ∀ t ∈ s1.processedTweets, SRok t)
    ∧ (∀ s1 r, runPass env s pend = .interrupted s1 r →
        ∀ t ∈ s1.processedTweets ++ r, SRok t)
    ∧ (∀ s1 r, runPass env s pend = .fatal s1 r →
        ∀ t ∈ s1.processedTweets ++ r, SRok t) := by
  intro pend
  induction pend with
  | nil =>
    intro s hsr
    refine ⟨?_, ?_, ?_⟩
    · intro s1 h
      simp only [runPass, PassResult.ok.injEq] at h
      subst h
      intro t ht
      exact hsr t (by simp [ht])
    · intro s1 r h
      simp only [runPass] at h
      exact absurd h (by simp)
    · intro s1 r h
      simp only [runPass] at h
      exact absurd h (by simp)
  | cons t rest ih =>
    intro s hsr
    by_cases hs : should_scrape env.expand_ids t = true
    · cases hscr : env.scrape t.id with
      | error e =>
        cases e with
        | interrupt =>
          have hres : runPass env s (t :: rest)
              = .interrupted { s with log := s.log ++ [Ev.scrapeReq t.id] ++ [Ev.writeCall] }
                  (t :: rest) := by
            simp only [runPass, if_pos hs, hscr]
          refine ⟨?_, ?_, ?_⟩
          · intro s1 h
            rw [hres] at h
            exact absurd h (by simp)
          · intro s1 r h
            rw [hres] at h
            simp only [PassResult.interrupted.injEq] at h
            intro u hu
            rw [← h.1, ← h.2] at hu
            exact hsr u hu
          · intro s1 r h
            rw [hres] at h
            exact absurd h (by simp)
        | httpFatal m =>
          have hres : runPass env s (t :: rest)
              = .fatal { s with log := s.log ++ [Ev.scrapeReq t.id] } (t :: rest) := by
            simp only [runPass, if_pos hs, hscr]
          refine ⟨?_, ?_, ?_⟩
          · intro s1 h
            rw [hres] at h
            exact absurd h (by simp)
          · intro s1 r h
            rw [hres] at h
            exact absurd h (by simp)
          · intro s1 r h
            rw [hres] at h
            simp only [PassResult.fatal.injEq] at h
            intro u hu
            rw [← h.1, ← h.2] at hu
            exact hsr u hu
      | ok resp =>
        cases hp : parse_scrape_response resp with
        | error m =>
          have hres : runPass env s (t :: rest)
              = .fatal { s with log := s.log ++ [Ev.scrapeReq t.id] } (t :: rest) := by
            simp only [runPass, if_pos hs, hscr, hp]
          refine ⟨?_, ?_, ?_⟩
          · intro s1 h
            rw [hres] at h
            exact absurd h (by simp)
          · intro s1 r h
            rw [hres] at h
            exact absurd h (by simp)
          · intro s1 r h
            rw [hres] at h
            simp only [PassResult.fatal.injEq] at h
            intro u hu
            rw [← h.1, ← h.2] at hu
            exact hsr u hu
        | ok refs =>
          have hres : runPass env s (t :: rest)
              = runPass env
                  (finishTweet { s with log := s.log ++ [Ev.scrapeReq t.id] }
                    { t with scraped_refs := some refs } refs) rest := by
            simp only [runPass, if_pos hs, hscr, hp]
          have hsr2 : ∀ u ∈ (finishTweet { s with log := s.log ++ [Ev.scrapeReq t.id] }
              { t with scraped_refs := some refs } refs).processedTweets ++ rest, SRok u := by
            intro u hu
            replace hu : u ∈ (s.processedTweets ++ [{ t with scraped_refs := some refs }])
                ++ rest := hu
            rcases List.mem_append.mp hu with hu1 | hu1
            · rcases List.mem_append.mp hu1 with hu2 | hu2
              · exact hsr u (by simp [hu2])
              · rw [List.mem_singleton] at hu2
                subst hu2
                intro l hl
                simp only [Option.some.injEq] at hl
                rw [← hl]
                exact parse_scrape_response_ne_nil resp refs hp
            · exact hsr u (by simp [hu1])
          rw [hres]
          exact ih _ hsr2
    · have hres : runPass env s (t :: rest)
          = runPass env (finishTweet s t (t.scraped_refs.getD [])) rest := by
        simp only [runPass, if_neg hs]
      have hsr2 : ∀ u ∈ (finishTweet s t (t.scraped_refs.getD [])).processedTweets
          ++ rest, SRok u := by
        intro u hu
        replace hu : u ∈ (s.processedTweets ++ [t]) ++ rest := hu
        rcases List.mem_append.mp hu with hu1 | hu1
        · rcases List.mem_append.mp hu1 with hu2 | hu2
          · exact hsr u (by simp [hu2])
          · rw [List.mem_singleton] at hu2
            subst hu2
            exact hsr u (by simp)
        · exact hsr u (by simp [hu1])
      rw [hres]
      exact ih _ hsr2

theorem closureLoop_sr {env : Env} (hF : FetchSound env) :
    ∀ (fuel : Nat) (s : Store) (pend : List Tweet),
    (∀ t ∈ s.processedTweets ++ pend, SRok t) →
    ∀ t ∈ ((closureLoop env fuel s pend).store).processedTweets
        ++ (closureLoop env fuel s pend).restPending, SRok t := by
  intro fuel
  induction fuel with
  | zero =>
    intro s pend hsr
    simp only [closureLoop, RunResult.store, RunResult.restPending]
    exact hsr
  | succ fuel ih =>
    intro s pend hsr
    have hrp := @runPass_sr env pend s hsr
    cases hr : runPass env s pend with
    | interrupted s2 r2 =>
      have hres : closureLoop env (fuel + 1) s pend = .interrupted s2 r2 := by
        simp only [closureLoop, hr]
      rw [hres]
      exact hrp.2.1 s2 r2 hr
    | fatal s2 r2 =>
      have hres : closureLoop env (fuel + 1) s pend = .fatal s2 r2 := by
        simp only [closureLoop, hr]
      rw [hres]
      exact hrp.2.2 s2 r2 hr
    | ok s2 =>
      have hsr2 := hrp.1 s2 hr
      by_cases hb : s2.batch.isEmpty
      · have hres : closureLoop env (fuel + 1) s pend = .done s2 := by
          simp only [closureLoop, hr]
          rw [if_pos hb]
        rw [hres]
        intro u hu
        simp only [RunResult.store, RunResult.restPending, List.append_nil] at hu
        exact hsr2 u hu
      · have hres : closureLoop env (fuel + 1) s pend
            = closureLoop env fuel (fetchPhase env s2).1 (fetchPhase env s2).2 := by
          simp only [closureLoop, hr]
          rw [if_neg hb]
        have hproc : ((fetchPhase env s2).1).processedTweets = s2.processedTweets := by
          show ({ ((chunks100 s2.batch).foldl (fetchChunk env) (s2, [])).1 with
            batch := [] } : Store).processedTweets = _
          rw [(fetchFold_spec env (chunks100 s2.batch) s2 []).1]
        have hpend : (fetchPhase env s2).2
            = (chunks100 s2.batch).flatMap (fun c => (env.fetch c).1) := by
          show ((chunks100 s2.batch).foldl (fetchChunk env) (s2, [])).2 = _
          rw [(fetchFold_spec env (chunks100 s2.batch) s2 []).2]
          simp
        have hsr3 : ∀ u ∈ ((fetchPhase env s2).1).processedTweets
            ++ (fetchPhase env s2).2, SRok u := by
          intro u hu
          rw [hproc, hpend] at hu
          rcases List.mem_append.mp hu with hu1 | hu1
          · exact hsr2 u hu1
          · intro l hl
            rw [flatMap_fetch_srefs hF _ u hu1] at hl
            exact absurd hl (by simp)
        rw [hres]
        exact ih _ _ hsr3

/-- Claim C10: `get_related_tweets` never returns an empty list — every value
it can return is non-empty (empty outcomes become a one-element sentinel
list); the closure loop's scrape guard treats a tweet whose `scraped_refs`
is the empty list exactly like one with no `scraped_refs` at all; and in any
closure run starting from a database whose stored `scraped_refs` values are
all non-empty, every `scraped_refs` value in the final database is still
non-empty — which is what keeps a scraped tweet from ever being selected for
scraping again. -/
theorem scraped_refs_nonempty :
    (∀ (r : ScrapeResponse) (l : List String), parse_scrape_response r = .ok l → l ≠ [])
    ∧ (∀ (expand : List String) (t : Tweet),
        should_scrape expand { t with scraped_refs := some [] }
          = should_scrape expand { t with scraped_refs := none })
    ∧ (∀ (env : Env) (fuel : Nat) (db : DB), FetchSound env →
        (∀ t ∈ db.tweets, SRok t) →
        ∀ t ∈ (do_reply_closure env fuel db).finalTweets, SRok t) := by
  refine ⟨parse_scrape_response_ne_nil, fun expand t => rfl, ?_⟩
  intro env fuel db hF hsr t ht
  have h0 : ∀ u ∈ (initStore db).processedTweets ++ db.tweets, SRok u := by
    intro u hu
    simp only [initStore, List.nil_append] at hu
    exact hsr u hu
  exact closureLoop_sr hF fuel (initStore db) db.tweets h0 t ht

theorem scraped_refs_nonempty_witness : (["tweet_was_deleted"] : List String) ≠ [] := by
  have h := scraped_refs_nonempty.2.2 envDeleted 3 dbOne
    (fun req => ⟨by simp [envDeleted], by simp [envDeleted]⟩)
    (by
      intro t ht
      rw [show dbOne.tweets = [Tweet.mk "1" "A" [] none] from rfl,
        List.mem_singleton] at ht
      subst ht
      intro l hl
      exact absurd hl (by simp))
    (Tweet.mk "1" "A" [] (some ["tweet_was_deleted"])) (by decide)
  exact h ["tweet_was_deleted"] rfl
